import Mathlib

/-!
# data2vcd: raw logic-probe capture to VCD

A shallow embedding of `src/pc/data2vcd/data2vcd.c` and the properties of its
control-script interpreter and trace encoder.

Conventions of the embedding

* `error(...)` prints a message and calls `exit(1)`: every function that can reach
  it returns `Except Failure _`, and the failure carries the message text. The file
  name that `ctrlError` and the completeness checks splice into the message is the
  same for the whole run and is left out; the line number is kept.
* C `int` values are `Int`. The one multiplication that can leave the `int` range,
  `time * timeFactor`, is reduced with `wrap32`.
* `atoi` is a library function. Where the decimal value fits an `int` it returns
  that value; C leaves the other case undefined, so the result there is the
  parameter `ovf` of the embedding: the general statements hold for all `ovf`, the
  closed examples name the one they use.
* The control file is read as bytes. Its text is given as a `String`, the bytes are
  the UTF-8 encoding of the text, and each byte is kept as the `Char` of that code:
  line buffers and tokens are sequences of bytes.
* The output file is the list of its lines, each without the terminating newline.
* The global table `signals[0 .. numSignals-1]` is a `List Signal`; `numSignals` is
  its length. The source never compares `numSignals` with the array capacity.
-/

namespace Data2Vcd

/-! ## Constants -/

/-- `#define LINE_SIZE 100` -/
def LINE_SIZE : Nat := 100

/-- `#define MAX_TOKENS 20` -/
def MAX_TOKENS : Nat := 20

/-- `#define MIN_CODE '!'` -/
def MIN_CODE : Nat := 33

/-- `#define MAX_CODE '~'` -/
def MAX_CODE : Nat := 126

/-- `#define NUM_CODES (MAX_CODE - MIN_CODE + 1)` -/
def NUM_CODES : Nat := MAX_CODE - MIN_CODE + 1

/-- Largest value of a C `int`. -/
def INT_MAX : Int := 2147483647

/-- Two's-complement reduction of an integer to the 32-bit `int` range. -/
def wrap32 (x : Int) : Int := (x + 2147483648) % 4294967296 - 2147483648

/-! ## Global state -/

/-- Ways a run is cut short: `error(msg)` and `ctrlError(msg, file, line)`. -/
inductive Failure where
  | error (msg : String)
  | ctrlError (msg : String) (line : Nat)
deriving DecidableEq, Repr

/-- `unsigned char data[512][16]`: `data time byteno`. -/
abbrev RawData := Nat → Nat → Nat

/-- One entry of the `signals` table. -/
structure Signal where
  name : String
  hiIndex : Int
  loIndex : Int
  code : String
deriving DecidableEq, Repr

/-- The globals `timeNumber`, `timeFactor`, `timeUnit`, `module`, `signals`. -/
structure Globals where
  timeNumber : Int
  timeFactor : Int
  timeUnit : String
  module : Option String
  signals : List Signal
deriving DecidableEq, Repr

/-- State at program start: `timeNumber = 0`, `module = NULL`, `numSignals = 0`;
the remaining globals are zero-initialised. -/
def Globals.init : Globals :=
  { timeNumber := 0, timeFactor := 0, timeUnit := "", module := none, signals := [] }

/-! ## Control file reader -/

/-- `isNumber`: non-empty and every character is a decimal digit. -/
def isNumber (str : String) : Bool :=
  match str.data with
  | [] => false
  | cs => cs.all Char.isDigit

/-- `isName`: non-empty, first character a letter or `_`, all characters letters,
digits or `_`. -/
def isName (str : String) : Bool :=
  match str.data with
  | [] => false
  | c :: cs =>
    if !c.isAlpha && c != '_' then false
    else (c :: cs).all (fun d => d.isAlphanum || d == '_')

/-- Decimal value of a digit string, most significant digit first. -/
def decimalValue (cs : List Char) : Nat :=
  cs.foldl (fun acc c => 10 * acc + (c.toNat - 48)) 0

/-- `atoi` on a token that passed `isNumber`: the decimal value when it fits an
`int`, and `ovf str` otherwise. -/
def atoi (ovf : String → Int) (str : String) : Int :=
  if (decimalValue str.data : Int) ≤ INT_MAX then (decimalValue str.data : Int) else ovf str

/-- `numberToCode`: the identifier code of sequence number `n`. The only caller
passes `numSignals`, which is never negative. -/
def numberToCode (n : Nat) : Except Failure String :=
  if n < NUM_CODES then
    .ok (String.mk [Char.ofNat (n + MIN_CODE)])
  else
    let m := n - NUM_CODES
    if m < NUM_CODES * NUM_CODES then
      .ok (String.mk [Char.ofNat (m / NUM_CODES + MIN_CODE), Char.ofNat (m % NUM_CODES + MIN_CODE)])
    else
      .error (.error "number too big in numberToCode()")

/-- The bytes that encode a character in UTF-8, each byte as the `Char` of that
code. A character below 128 is its own single byte. -/
def utf8Bytes (c : Char) : List Char :=
  if c.toNat < 128 then [c]
  else if c.toNat < 2048 then
    [Char.ofNat (192 + c.toNat / 64), Char.ofNat (128 + c.toNat % 64)]
  else if c.toNat < 65536 then
    [Char.ofNat (224 + c.toNat / 4096), Char.ofNat (128 + c.toNat / 64 % 64),
     Char.ofNat (128 + c.toNat % 64)]
  else
    [Char.ofNat (240 + c.toNat / 262144), Char.ofNat (128 + c.toNat / 4096 % 64),
     Char.ofNat (128 + c.toNat / 64 % 64), Char.ofNat (128 + c.toNat % 64)]

/-- The bytes of a file with the given text. -/
def fileBytes (text : List Char) : List Char := text.flatMap utf8Bytes

/-- The buffers that successive calls `fgets(line, LINE_SIZE, ctrlFile)` fill from
the bytes still to be read: a call stops after a newline or after `LINE_SIZE - 1`
bytes. The second argument is the part of the current buffer read so far, in
reverse. -/
def fgetsChunks : List Char → List Char → List (List Char)
  | [], acc => if acc.isEmpty then [] else [acc.reverse]
  | c :: cs, acc =>
    if c = '\n' ∨ acc.length + 1 = LINE_SIZE - 1 then
      (c :: acc).reverse :: fgetsChunks cs []
    else
      fgetsChunks cs (c :: acc)

/-- The line buffers that the `fgets` loop of `readCtrl` sees for a file with the
given text: `fgets` counts bytes, so the text is split as its byte sequence. The
second argument is the part of the current buffer read so far, in reverse. -/
def fgetsLines (text : List Char) (acc : List Char) : List (List Char) :=
  fgetsChunks (fileBytes text) acc

/-- Delimiters of `strtok(line, " \t\n")`. -/
def isDelim (c : Char) : Bool := c = ' ' ∨ c = '\t' ∨ c = '\n'

/-- All tokens that the `strtok` loop finds in a line. The second argument is the
token being read, in reverse. -/
def strtokAll : List Char → List Char → List String
  | [], acc => if acc.isEmpty then [] else [String.mk acc.reverse]
  | c :: cs, acc =>
    if isDelim c then
      if acc.isEmpty then strtokAll cs [] else String.mk acc.reverse :: strtokAll cs []
    else
      strtokAll cs (c :: acc)

/-- Tokens of one line buffer; as a C string the buffer ends at its first NUL. -/
def tokenize (line : List Char) : List String :=
  strtokAll (line.takeWhile (fun c => c != Char.ofNat 0)) []

/-- The time unit test of the `timescale` branch. -/
def isTimeUnit (u : String) : Bool :=
  !(u != "s" && u != "ms" && u != "us" && u != "ns" && u != "ps" && u != "fs")

/-- The decomposition in the `timescale` branch: `(timeNumber, timeFactor)` from
the value `atoi` returned. `%` and `/` of C truncate towards zero. -/
def splitTimescale (n : Int) : Int × Int :=
  if Int.tmod n 100 = 0 then (100, Int.tdiv n 100)
  else if Int.tmod n 10 = 0 then (10, Int.tdiv n 10)
  else (1, n)

/-- The `timescale` branch of `readCtrl`. -/
def timescaleDirective (ovf : String → Int) (g : Globals) (lineno : Nat)
    (tokens : List String) : Except Failure Globals :=
  match tokens with
  | [_, number, unit] =>
    if !isNumber number then
      .error (.ctrlError "'timescale' directive needs a number" lineno)
    else
      let tn := splitTimescale (atoi ovf number)
      if !isTimeUnit unit then
        .error (.ctrlError "'timescale' must use one of (s, ms, us, ns, ps, fs)" lineno)
      else
        .ok { g with timeNumber := tn.1, timeFactor := tn.2, timeUnit := unit }
  | _ => .error (.ctrlError "wrong number of tokens for 'timescale' directive" lineno)

/-- The `module` branch of `readCtrl`. -/
def moduleDirective (g : Globals) (lineno : Nat) (tokens : List String) :
    Except Failure Globals :=
  match tokens with
  | [_, name] =>
    if !isName name then
      .error (.ctrlError "'module' directive needs a name" lineno)
    else
      .ok { g with module := some name }
  | _ => .error (.ctrlError "wrong number of tokens for 'module' directive" lineno)

/-- The range checks and the table update that end the `wire` branch. The source
stores at `signals[numSignals]` without a test against the capacity of 128, so the
store is inside the array only while the table has fewer than 128 entries. -/
def wireStore (g : Globals) (lineno : Nat) (name : String) (hiIndex loIndex : Int) :
    Except Failure Globals :=
  if hiIndex < 0 ∨ hiIndex > 127 then
    .error (.ctrlError "high index out of range" lineno)
  else if loIndex < 0 ∨ loIndex > 127 then
    .error (.ctrlError "low index out of range" lineno)
  else if hiIndex < loIndex then
    .error (.ctrlError "range must be specified as high : low" lineno)
  else
    match numberToCode g.signals.length with
    | .error e => .error e
    | .ok code =>
      .ok { g with signals := g.signals ++
              [{ name := name, hiIndex := hiIndex, loIndex := loIndex, code := code }] }

/-- The `wire` branch of `readCtrl`: three tokens or five, anything else is the
"wrong number of tokens" error. -/
def wireDirective (ovf : String → Int) (g : Globals) (lineno : Nat)
    (tokens : List String) : Except Failure Globals :=
  match tokens with
  | [_, name, hi] =>
    if !isName name then .error (.ctrlError "'wire' needs a name" lineno)
    else if !isNumber hi then .error (.ctrlError "high index must be a number" lineno)
    else wireStore g lineno name (atoi ovf hi) (atoi ovf hi)
  | [_, name, hi, sep, lo] =>
    if !isName name then .error (.ctrlError "'wire' needs a name" lineno)
    else if !isNumber hi then .error (.ctrlError "high index must be a number" lineno)
    else if sep != ":" then
      .error (.ctrlError "separator ':' between high and low index missing" lineno)
    else if !isNumber lo then .error (.ctrlError "low index must be a number" lineno)
    else wireStore g lineno name (atoi ovf hi) (atoi ovf lo)
  | _ => .error (.ctrlError "wrong number of tokens for 'wire' directive" lineno)

/-- What `readCtrl` does with the tokens of one line, once they are collected. -/
def directive (ovf : String → Int) (g : Globals) (lineno : Nat)
    (tokens : List String) : Except Failure Globals :=
  match tokens with
  | [] => .ok g
  | t0 :: _ =>
    if t0.data.head? = some '#' then .ok g
    else if t0 = "timescale" then timescaleDirective ovf g lineno tokens
    else if t0 = "module" then moduleDirective g lineno tokens
    else if t0 = "wire" then wireDirective ovf g lineno tokens
    else .error (.ctrlError "unknown directive" lineno)

/-- One iteration of the `fgets` loop of `readCtrl`: tokenise, then interpret. The
token loop stops with an error as soon as it meets token number `MAX_TOKENS + 1`. -/
def ctrlLine (ovf : String → Int) (g : Globals) (lineno : Nat) (line : List Char) :
    Except Failure Globals :=
  if (tokenize line).length > MAX_TOKENS then
    .error (.ctrlError "too many tokens" lineno)
  else
    directive ovf g lineno (tokenize line)

/-- The `fgets` loop of `readCtrl`; `lineno` is the number of the first line of
the list. -/
def ctrlLines (ovf : String → Int) : List (List Char) → Nat → Globals → Except Failure Globals
  | [], _, g => .ok g
  | l :: ls, lineno, g =>
    match ctrlLine ovf g lineno l with
    | .error e => .error e
    | .ok g1 => ctrlLines ovf ls (lineno + 1) g1

/-- The three checks after the loop of `readCtrl`. -/
def ctrlComplete (g : Globals) : Except Failure Globals :=
  if g.timeNumber = 0 then .error (.error "'timescale' directive missing")
  else if g.module = none then .error (.error "'module' directive missing")
  else if g.signals.length = 0 then .error (.error "'wire' directive(s) missing")
  else .ok g

/-- `readCtrl` on the text of the control file, from the initial globals. -/
def readCtrl (ovf : String → Int) (script : String) : Except Failure Globals :=
  match ctrlLines ovf (fgetsLines script.data []) 1 Globals.init with
  | .error e => .error e
  | .ok g => ctrlComplete g

/-! ## VCD file writer -/

/-- `getDataBitAtTime`: the sample bit `bitno` at time step `time`. -/
def getDataBitAtTime (data : RawData) (bitno time : Int) : Except Failure Nat :=
  if bitno < 0 ∨ bitno ≥ 128 then
    .error (.error ("illegal bit number " ++ toString bitno ++ " in getDataBitAtTime()"))
  else if time < 0 ∨ time ≥ 512 then
    .error (.error ("illegal time " ++ toString time ++ " in getDataBitAtTime()"))
  else
    let byteno := 15 - Int.tdiv bitno 8
    let bitshift := Int.tmod bitno 8
    .ok (if data time.toNat byteno.toNat &&& (1 <<< bitshift.toNat) ≠ 0 then 1 else 0)

/-- The `printf` conversion `%c` of `bit + '0'`. -/
def bitChar (bit : Nat) : Char := Char.ofNat (bit + 48)

/-- `writeVarDefs`: one `$var` line for each signal. -/
def writeVarDefs (g : Globals) : List String :=
  g.signals.map fun s =>
    let numBits := s.hiIndex - s.loIndex + 1
    "$var wire " ++ toString numBits ++ " " ++ s.code ++ " " ++ s.name ++ " " ++
      (if numBits > 1 then "[" ++ toString (numBits - 1) ++ ":" ++ toString (0 : Int) ++ "] "
       else "") ++
      "$end"

/-- The loop `for (bitno = hi; bitno >= lo; bitno--)` of `writeVarChange` with `n`
iterations to go, so that the next one has `bitno = lo + n - 1`. -/
def vectorBits (data : RawData) (lo time : Int) : Nat → Except Failure (List Char)
  | 0 => .ok []
  | n + 1 =>
    match getDataBitAtTime data (lo + n) time with
    | .error e => .error e
    | .ok b =>
      match vectorBits data lo time n with
      | .error e => .error e
      | .ok rest => .ok (bitChar b :: rest)

/-- `writeVarChange`: the value line of signal `s` at time step `time`. -/
def writeVarChange (data : RawData) (s : Signal) (time : Int) : Except Failure String :=
  if s.hiIndex = s.loIndex then
    match getDataBitAtTime data s.hiIndex time with
    | .error e => .error e
    | .ok b => .ok (String.mk [bitChar b] ++ s.code)
  else
    match vectorBits data s.loIndex time (s.hiIndex - s.loIndex + 1).toNat with
    | .error e => .error e
    | .ok bits => .ok ("b" ++ String.mk bits ++ " " ++ s.code)

/-- `writeVarInits`: the value line of every signal at time step 0. -/
def writeVarInits (data : RawData) : List Signal → Except Failure (List String)
  | [] => .ok []
  | s :: rest =>
    match writeVarChange data s 0 with
    | .error e => .error e
    | .ok line =>
      match writeVarInits data rest with
      | .error e => .error e
      | .ok lines => .ok (line :: lines)

/-- The scan `for (bitno = hi; bitno >= lo; bitno--)` of `writeVarChanges` with `n`
iterations to go (next `bitno = lo + n - 1`). The result is the test `bitno >= lo`
after the loop: `true` after a `break`, `false` when the loop ran out. -/
def changeScan (data : RawData) (lo time : Int) : Nat → Except Failure Bool
  | 0 => .ok false
  | n + 1 =>
    match getDataBitAtTime data (lo + n) (time - 1) with
    | .error e => .error e
    | .ok a =>
      match getDataBitAtTime data (lo + n) time with
      | .error e => .error e
      | .ok b => if a ≠ b then .ok true else changeScan data lo time n

/-- The timestamp line `fprintf(vcdFile, "#%d\n", time * timeFactor)`. -/
def timeLine (g : Globals) (time : Int) : String :=
  "#" ++ toString (wrap32 (time * g.timeFactor))

/-- Body of the `signo` loop of `writeVarChanges` for one signal: the lines written
and the new value of `mustWriteTime`. -/
def signalStep (g : Globals) (data : RawData) (time : Int) (s : Signal)
    (mustWriteTime : Bool) : Except Failure (List String × Bool) :=
  match changeScan data s.loIndex time (s.hiIndex - s.loIndex + 1).toNat with
  | .error e => .error e
  | .ok false => .ok ([], mustWriteTime)
  | .ok true =>
    match writeVarChange data s time with
    | .error e => .error e
    | .ok line => .ok ((if mustWriteTime then [timeLine g time] else []) ++ [line], false)

/-- The `signo` loop of `writeVarChanges` over the rest of the table. -/
def signalLoop (g : Globals) (data : RawData) (time : Int) :
    List Signal → Bool → Except Failure (List String)
  | [], _ => .ok []
  | s :: rest, mustWriteTime =>
    match signalStep g data time s mustWriteTime with
    | .error e => .error e
    | .ok (lines, flag) =>
      match signalLoop g data time rest flag with
      | .error e => .error e
      | .ok more => .ok (lines ++ more)

/-- The loop `for (time = 1; time < 512; time++)` of `writeVarChanges` with `n`
iterations to go, the next one at `time`. -/
def timeLoop (g : Globals) (data : RawData) : Nat → Int → Except Failure (List String)
  | 0, _ => .ok []
  | n + 1, time =>
    match signalLoop g data time g.signals true with
    | .error e => .error e
    | .ok lines =>
      match timeLoop g data n (time + 1) with
      | .error e => .error e
      | .ok more => .ok (lines ++ more)

/-- `writeVarChanges`: the change dump for time steps 1 to 511 and the closing
timestamp, written with `time = 512`. -/
def writeVarChanges (g : Globals) (data : RawData) : Except Failure (List String) :=
  match timeLoop g data 511 1 with
  | .error e => .error e
  | .ok body => .ok (body ++ [timeLine g 512])

/-- `writeVcd`: the whole output file. `date` is the text `ctime` returned, without
its newline; `module` is set whenever `readCtrl` has succeeded. -/
def writeVcd (date : String) (g : Globals) (data : RawData) : Except Failure (List String) :=
  match writeVarInits data g.signals with
  | .error e => .error e
  | .ok inits =>
    match writeVarChanges g data with
    | .error e => .error e
    | .ok changes =>
      .ok (["$date", "\t" ++ date, "$end",
            "$version", "\tdata2vcd converter", "$end",
            "$timescale", "\t" ++ toString g.timeNumber ++ " " ++ g.timeUnit, "$end",
            "$scope module " ++ g.module.getD "(null)" ++ " $end"] ++
           writeVarDefs g ++
           ["$upscope $end", "$enddefinitions $end", "#0", "$dumpvars"] ++
           inits ++ ["$end"] ++ changes)

/-! ## Reference definitions

Written from the specification, for comparison with the code above. -/

/-- Byte position of bit index `b` inside a time step: `15 - b / 8`. -/
def byteOf (b : Nat) : Nat := 15 - b / 8

/-- Position of bit index `b` inside its byte: `b mod 8`. -/
def shiftOf (b : Nat) : Nat := b % 8

/-- Bit index held at position `s` of byte `k`: `(15 - k) * 8 + s`. -/
def bitIndexOf (k s : Nat) : Nat := (15 - k) * 8 + s

/-- Bit `b` of time step `t` by the addressing rule. -/
def specBit (data : RawData) (b t : Nat) : Nat :=
  if (data t (byteOf b)).testBit (shiftOf b) then 1 else 0

/-- The addressing rule at `int` arguments that are in range. -/
def bitAt (data : RawData) (b t : Int) : Nat := specBit data b.toNat t.toNat

/-- A signal whose range lies inside the 128-bit vector, high index first. -/
def Signal.inRange (s : Signal) : Prop :=
  0 ≤ s.loIndex ∧ s.loIndex ≤ s.hiIndex ∧ s.hiIndex ≤ 127

/-- Some bit of the range `lo .. hi` differs between time steps `t - 1` and `t`. -/
def specChanged (data : RawData) (s : Signal) (t : Int) : Prop :=
  ∃ b : Int, s.loIndex ≤ b ∧ b ≤ s.hiIndex ∧
    getDataBitAtTime data b (t - 1) ≠ getDataBitAtTime data b t

/-- Full comparison of the `n` bits `lo .. lo + n - 1` at time steps `t - 1` and
`t`, without stopping early. -/
def rangeDiffers (data : RawData) (lo t : Int) : Nat → Bool
  | 0 => false
  | n + 1 => (bitAt data (lo + n) (t - 1) != bitAt data (lo + n) t) || rangeDiffers data lo t n

/-- The signal is considered changed at `t`: any compared bit pair differs. -/
def changedAt (data : RawData) (t : Int) (s : Signal) : Bool :=
  rangeDiffers data s.loIndex t (s.hiIndex - s.loIndex + 1).toNat

/-- Value line of a signal: a scalar is the bit character followed by the code, a
vector is `b`, one bit character per bit from high to low, a space, the code. -/
def specValueLine (data : RawData) (t : Int) (s : Signal) : String :=
  if s.hiIndex = s.loIndex then
    String.mk [bitChar (bitAt data s.hiIndex t)] ++ s.code
  else
    "b" ++ String.mk ((List.range (s.hiIndex - s.loIndex + 1).toNat).map
      fun (j : Nat) => bitChar (bitAt data (s.hiIndex - (j : Int)) t)) ++ " " ++ s.code

/-- What the change dump holds for time step `t`: nothing when no signal changed,
else the timestamp and the value lines of the changed signals in table order. -/
def specStep (g : Globals) (data : RawData) (t : Int) : List String :=
  if (g.signals.filter (changedAt data t)).isEmpty then []
  else timeLine g t :: (g.signals.filter (changedAt data t)).map (specValueLine data t)

/-- A valid identifier: the first character is a letter or an underscore, the rest
are letters, digits or underscores. -/
def specIdentifier (str : String) : Prop :=
  ∃ c cs, str.data = c :: cs ∧ (c.isAlpha = true ∨ c = '_') ∧
    ∀ d ∈ cs, d.isAlpha = true ∨ d.isDigit = true ∨ d = '_'

/-- A non-empty string of decimal digits. -/
def specDigits (str : String) : Prop :=
  str.data ≠ [] ∧ ∀ d ∈ str.data, d.isDigit = true

/-- The high index of a `wire` line: the number in token 2. -/
def wireHi (ovf : String → Int) (toks : List String) : Int :=
  atoi ovf (toks.getD 2 "")

/-- The low index of a `wire` line: the number in token 4 in the 5-token form, the
high index in the 3-token form. -/
def wireLow (ovf : String → Int) (toks : List String) : Int :=
  if toks.length = 5 then atoi ovf (toks.getD 4 "") else wireHi ovf toks

/-- Conditions (i) to (vi) on the tokens of a `wire` line. -/
def specWireLine (ovf : String → Int) (toks : List String) : Prop :=
  (toks.length = 3 ∨ toks.length = 5) ∧
  specIdentifier (toks.getD 1 "") ∧
  specDigits (toks.getD 2 "") ∧
  (toks.length = 5 → toks.getD 3 "" = ":" ∧ specDigits (toks.getD 4 "")) ∧
  (0 ≤ wireHi ovf toks ∧ wireHi ovf toks ≤ 127) ∧
  (0 ≤ wireLow ovf toks ∧ wireLow ovf toks ≤ 127) ∧
  wireHi ovf toks ≥ wireLow ovf toks

/-- The globals after a `wire` line has been accepted: one signal more, at the end
of the table. -/
def wireAppend (ovf : String → Int) (g : Globals) (toks : List String) (code : String) :
    Globals :=
  { g with signals := g.signals ++
      [{ name := toks.getD 1 "", hiIndex := wireHi ovf toks, loIndex := wireLow ovf toks,
         code := code }] }

/-- The change dump for time steps `1 .. 511`: the steps' blocks in time order. -/
def specBody (g : Globals) (data : RawData) : List String :=
  (List.range' 1 511).flatMap fun (t : Nat) => specStep g data (t : Int)

/-- Units a `timescale` line may name. -/
def specTimeUnits : List String := ["s", "ms", "us", "ns", "ps", "fs"]

/-- Conditions on the tokens of a `timescale` line: two arguments, the first a
non-empty string of decimal digits, the second a unit. -/
def specTimescaleLine (toks : List String) : Prop :=
  toks.length = 3 ∧ specDigits (toks.getD 1 "") ∧ toks.getD 2 "" ∈ specTimeUnits

/-- The globals after a `timescale` line has been accepted. -/
def timescaleSet (ovf : String → Int) (g : Globals) (toks : List String) : Globals :=
  { g with timeNumber := (splitTimescale (atoi ovf (toks.getD 1 ""))).1,
           timeFactor := (splitTimescale (atoi ovf (toks.getD 1 ""))).2,
           timeUnit := toks.getD 2 "" }

/-- Every table entry carries the code of its position. -/
def CodesAssigned (g : Globals) : Prop :=
  ∀ (i : Nat) (s : Signal), g.signals[i]? = some s → numberToCode i = .ok s.code

/-- Every table entry has `0 <= loIndex <= hiIndex <= 127`. -/
def AllInRange (g : Globals) : Prop := ∀ s ∈ g.signals, s.inRange

/-- The code that a value line carries: for a vector line `b<bits> <code>` the text
after the first blank, for a scalar line `0<code>` or `1<code>` the text after the
bit character; no code for any other line. -/
def lineCode (line : String) : Option String :=
  match line.data with
  | [] => none
  | c :: rest =>
    if c = 'b' then some (String.mk ((rest.dropWhile fun d => d != ' ').drop 1))
    else if c = '0' ∨ c = '1' then some (String.mk rest)
    else none

/-- The most recent value line with the given code among the lines written so far. -/
def lastLineFor (code : String) (lines : List String) : Option String :=
  (lines.filter fun l => lineCode l == some code).getLast?

/-- A timestamp marker line: a line that starts with `#`. -/
def isMarker (line : String) : Bool := line.data.head? == some '#'

/-- Some signal of the table changed at time step `t`. -/
def anyChanged (g : Globals) (data : RawData) (t : Nat) : Bool :=
  !(g.signals.filter (changedAt data (t : Int))).isEmpty

/-- Some line of the script has `kw` as its first token. -/
def hasDirective (kw : String) (lines : List (List Char)) : Prop :=
  ∃ l ∈ lines, (tokenize l).head? = some kw

/-- The names (token 1) of the lines whose first token is `wire`, in script order. -/
def wireNames (lines : List (List Char)) : List String :=
  (lines.filter fun l => (tokenize l).head? == some "wire").map
    fun l => (tokenize l).getD 1 ""

/-! ## Sample inputs -/

/-- Raw sample matrix of 8192 zero bytes. -/
def zeroData : RawData := fun _ _ => 0

/-- Raw sample matrix that is zero except for `data[1][15] = 0x01`. -/
def pulseData : RawData := fun t k => if t = 1 ∧ k = 15 then 1 else 0

/-- Control script `timescale 10 ns`, `module m`, `wire a 0`. -/
def scenarioScript : String := "timescale 10 ns\nmodule m\nwire a 0\n"

/-- The globals after `readCtrl` has read `scenarioScript`. -/
def scenarioGlobals : Globals :=
  { timeNumber := 10, timeFactor := 1, timeUnit := "ns", module := some "m",
    signals := [{ name := "a", hiIndex := 0, loIndex := 0, code := "!" }] }

/-- Control script with a sample interval of 4194304 ns. -/
def wideScript : String := "timescale 4194304 ns\nmodule m\nwire a 0\n"

/-- The globals after `readCtrl` has read `wideScript`. -/
def wideGlobals : Globals :=
  { timeNumber := 1, timeFactor := 4194304, timeUnit := "ns", module := some "m",
    signals := [{ name := "a", hiIndex := 0, loIndex := 0, code := "!" }] }

/-- A four-bit signal on bits 3 to 0. -/
def busSignal : Signal := { name := "bus", hiIndex := 3, loIndex := 0, code := "%" }

/-- Control script with two `wire` lines of the same name. -/
def dupScript : String := "timescale 10 ns\nmodule m\nwire a 0\nwire a 1\n"

/-- Control script with 129 `wire` lines, named `w0` to `w128`. -/
def fullScript : String :=
  String.join (["timescale 10 ns\n", "module m\n"] ++
    (List.range 129).map fun (i : Nat) => "wire w" ++ toString i ++ " 0\n")

/-- Comment line with 21 tokens. -/
def crowdedComment : String := "# 1 2 3 4 5 6 7 8 9 10 11 12 13 14 15 16 17 18 19 20\n"

/-- Comment line of more than 99 characters: `# `, 96 times `a`, a blank, and then
the text `wire b 1`. -/
def longComment : String :=
  "# " ++ String.mk (List.replicate 96 'a') ++ " wire b 1\n"

/-- Comment line of 60 characters and 108 bytes: `# `, 48 times `é` (two bytes
each), a blank, and then the text `wire b 1`. -/
def accentComment : String :=
  "# " ++ String.mk (List.replicate 48 (Char.ofNat 233)) ++ " wire b 1\n"

/-- An `atoi` overflow behaviour, for closed examples. -/
def ovfZero : String → Int := fun _ => 0

/-- The `atoi` overflow behaviour of the usual C libraries for numbers below `2^63`:
the number reduced to 32 bits. -/
def ovfWrap : String → Int := fun str => wrap32 (decimalValue str.data)

/-- Configuration with a scalar signal on bit 0 and the four-bit signal `busSignal`. -/
def busGlobals : Globals :=
  { timeNumber := 10, timeFactor := 1, timeUnit := "ns", module := some "m",
    signals := [{ name := "a", hiIndex := 0, loIndex := 0, code := "!" }, busSignal] }

/-! ## Helper lemmas -/

theorem getDataBitAtTime_inRange (data : RawData) (b t : Int)
    (hb0 : 0 ≤ b) (hb : b ≤ 127) (ht0 : 0 ≤ t) (ht : t ≤ 511) :
    getDataBitAtTime data b t = .ok (bitAt data b t) := by
  have h1 : ¬ (b < 0 ∨ b ≥ 128) := by omega
  have h2 : ¬ (t < 0 ∨ t ≥ 512) := by omega
  have hd : Int.tdiv b 8 = b / 8 := Int.tdiv_eq_ediv hb0 (by decide)
  have hm : Int.tmod b 8 = b % 8 := Int.tmod_eq_emod hb0 (by decide)
  have hk : (15 - b / 8).toNat = byteOf b.toNat := by unfold byteOf; omega
  have hs : (b % 8).toNat = shiftOf b.toNat := by unfold shiftOf; omega
  simp only [getDataBitAtTime, h1, h2, if_false, hd, hm, hk, hs, bitAt, specBit]
  congr 1
  rw [Nat.one_shiftLeft, Nat.and_two_pow]
  cases (data t.toNat (byteOf b.toNat)).testBit (shiftOf b.toNat) <;> simp

theorem changeScan_eq (data : RawData) (lo t : Int) (n : Nat)
    (hlo : 0 ≤ lo) (hn : lo + n ≤ 128) (ht1 : 1 ≤ t) (ht : t ≤ 511) :
    changeScan data lo t n = .ok (rangeDiffers data lo t n) := by
  induction n with
  | zero => rfl
  | succ k ih =>
    have hk : lo + (k : Int) ≤ 127 := by push_cast at hn; omega
    have ih1 := ih (by omega)
    rw [changeScan, getDataBitAtTime_inRange data _ _ (by omega) hk (by omega) (by omega),
      getDataBitAtTime_inRange data _ _ (by omega) hk (by omega) ht]
    simp only [rangeDiffers, ih1]
    by_cases hab : bitAt data (lo + k) (t - 1) = bitAt data (lo + k) t
    · simp [hab]
    · simp [hab]

theorem rangeDiffers_iff (data : RawData) (lo t : Int) (n : Nat) :
    rangeDiffers data lo t n = true ↔
      ∃ k : Nat, k < n ∧ bitAt data (lo + k) (t - 1) ≠ bitAt data (lo + k) t := by
  induction n with
  | zero => simp [rangeDiffers]
  | succ m ih =>
    simp only [rangeDiffers, Bool.or_eq_true, bne_iff_ne, ih]
    constructor
    · rintro (h | ⟨k, hk, h⟩)
      · exact ⟨m, by omega, h⟩
      · exact ⟨k, by omega, h⟩
    · rintro ⟨k, hk, h⟩
      by_cases hkm : k = m
      · subst hkm; exact Or.inl h
      · exact Or.inr ⟨k, by omega, h⟩

theorem changedAt_iff (data : RawData) (s : Signal) (t : Int)
    (hs : s.inRange) (ht1 : 1 ≤ t) (ht : t ≤ 511) :
    changedAt data t s = true ↔ specChanged data s t := by
  obtain ⟨h0, h1, h2⟩ := hs
  unfold changedAt specChanged
  rw [rangeDiffers_iff]
  constructor
  · rintro ⟨k, hk, h⟩
    refine ⟨s.loIndex + k, by omega, by omega, ?_⟩
    rw [getDataBitAtTime_inRange data _ _ (by omega) (by omega) (by omega) (by omega),
      getDataBitAtTime_inRange data _ _ (by omega) (by omega) (by omega) ht]
    intro hc
    exact h (Except.ok.inj hc)
  · rintro ⟨b, hb0, hb1, h⟩
    refine ⟨(b - s.loIndex).toNat, by omega, ?_⟩
    have hb : s.loIndex + ((b - s.loIndex).toNat : Int) = b := by omega
    rw [hb]
    intro hc
    apply h
    rw [getDataBitAtTime_inRange data _ _ (by omega) (by omega) (by omega) (by omega),
      getDataBitAtTime_inRange data _ _ (by omega) (by omega) (by omega) ht, hc]

theorem vectorBits_eq (data : RawData) (lo t : Int) (n : Nat)
    (hlo : 0 ≤ lo) (hn : lo + n ≤ 128) (ht0 : 0 ≤ t) (ht : t ≤ 511) :
    vectorBits data lo t n =
      .ok ((List.range n).map
        fun (j : Nat) => bitChar (bitAt data (lo + (n : Int) - 1 - (j : Int)) t)) := by
  induction n with
  | zero => rfl
  | succ k ih =>
    have hk : lo + (k : Int) ≤ 127 := by push_cast at hn; omega
    rw [vectorBits, getDataBitAtTime_inRange data _ _ (by omega) hk ht0 ht, ih (by omega)]
    simp only [List.range_succ_eq_map, List.map_cons, List.map_map]
    congr 2
    · push_cast; congr 2; omega
    · apply List.map_congr_left
      intro j _
      simp only [Function.comp]
      push_cast
      congr 2
      omega

theorem writeVarChange_eq (data : RawData) (s : Signal) (t : Int)
    (hs : s.inRange) (ht0 : 0 ≤ t) (ht : t ≤ 511) :
    writeVarChange data s t = .ok (specValueLine data t s) := by
  obtain ⟨h0, h1, h2⟩ := hs
  unfold writeVarChange specValueLine
  by_cases heq : s.hiIndex = s.loIndex
  · simp only [heq, if_true]
    rw [getDataBitAtTime_inRange data _ _ h0 (by omega) ht0 ht]
  · simp only [heq, if_false]
    rw [vectorBits_eq data _ _ _ h0 (by omega) ht0 ht]
    have hmap : (List.range (s.hiIndex - s.loIndex + 1).toNat).map
          (fun (j : Nat) => bitChar (bitAt data
            (s.loIndex + ((s.hiIndex - s.loIndex + 1).toNat : Int) - 1 - (j : Int)) t)) =
        (List.range (s.hiIndex - s.loIndex + 1).toNat).map
          (fun (j : Nat) => bitChar (bitAt data (s.hiIndex - (j : Int)) t)) := by
      apply List.map_congr_left
      intro j _
      congr 2
      omega
    rw [hmap]

theorem signalStep_eq (g : Globals) (data : RawData) (t : Int) (s : Signal) (flag : Bool)
    (hs : s.inRange) (ht1 : 1 ≤ t) (ht : t ≤ 511) :
    signalStep g data t s flag =
      .ok (if changedAt data t s then
             ((if flag then [timeLine g t] else []) ++ [specValueLine data t s], false)
           else ([], flag)) := by
  have hscan := changeScan_eq data s.loIndex t (s.hiIndex - s.loIndex + 1).toNat hs.1
    (by have := hs.2.1; have := hs.2.2; omega) ht1 ht
  unfold signalStep
  rw [hscan, writeVarChange_eq data s t hs (by omega) ht]
  unfold changedAt
  cases rangeDiffers data s.loIndex t (s.hiIndex - s.loIndex + 1).toNat <;> simp

theorem signalLoop_eq (g : Globals) (data : RawData) (t : Int) (ht1 : 1 ≤ t) (ht : t ≤ 511)
    (sigs : List Signal) (hs : ∀ s ∈ sigs, s.inRange) (flag : Bool) :
    signalLoop g data t sigs flag =
      .ok ((if flag && !(sigs.filter (changedAt data t)).isEmpty then [timeLine g t] else []) ++
        (sigs.filter (changedAt data t)).map (specValueLine data t)) := by
  induction sigs generalizing flag with
  | nil => simp [signalLoop]
  | cons s rest ih =>
    have hrest : ∀ x ∈ rest, x.inRange := fun x hx => hs x (List.mem_cons_of_mem _ hx)
    rw [signalLoop, signalStep_eq g data t s flag (hs s (List.mem_cons_self _ _)) ht1 ht]
    by_cases hc : changedAt data t s = true
    · simp only [hc, if_true, ih hrest false, List.filter_cons]
      cases flag <;> simp
    · simp only [hc, if_false, List.filter_cons, Bool.false_eq_true]
      rw [ih hrest flag]
      simp

theorem signalLoop_step (g : Globals) (data : RawData) (t : Int) (ht1 : 1 ≤ t) (ht : t ≤ 511)
    (hs : ∀ s ∈ g.signals, s.inRange) :
    signalLoop g data t g.signals true = .ok (specStep g data t) := by
  rw [signalLoop_eq g data t ht1 ht g.signals hs true]
  unfold specStep
  cases h : (g.signals.filter (changedAt data t)).isEmpty
  · simp
  · have hnil : g.signals.filter (changedAt data t) = [] := List.isEmpty_iff.mp h
    simp [hnil]

theorem timeLoop_eq (g : Globals) (data : RawData) (hs : ∀ s ∈ g.signals, s.inRange)
    (n t0 : Nat) (h1 : 1 ≤ t0) (hn : t0 + n ≤ 512) :
    timeLoop g data n (t0 : Int) =
      .ok ((List.range' t0 n).flatMap fun (t : Nat) => specStep g data (t : Int)) := by
  induction n generalizing t0 with
  | zero => rfl
  | succ k ih =>
    have hk := ih (t0 + 1) (by omega) (by omega)
    have hcast : ((t0 + 1 : Nat) : Int) = (t0 : Int) + 1 := by push_cast; rfl
    rw [hcast] at hk
    rw [timeLoop, signalLoop_step g data t0 (by omega) (by omega) hs, hk]
    simp [List.range'_succ]

theorem writeVarChanges_eq (g : Globals) (data : RawData) (hs : ∀ s ∈ g.signals, s.inRange) :
    writeVarChanges g data = .ok (specBody g data ++ [timeLine g 512]) := by
  have h := timeLoop_eq g data hs 511 1 (by omega) (by omega)
  simp only [Nat.cast_one] at h
  rw [writeVarChanges, h]
  rfl

theorem wrap32_of_fits (x : Int) (h0 : -2147483648 ≤ x) (h1 : x ≤ 2147483647) :
    wrap32 x = x := by
  unfold wrap32; omega

theorem rangeDiffers_zeroData (lo t : Int) (n : Nat) : rangeDiffers zeroData lo t n = false := by
  induction n with
  | zero => rfl
  | succ k ih => simp [rangeDiffers, ih, bitAt, specBit, zeroData]

theorem specStep_zeroData (g : Globals) (t : Int) : specStep g zeroData t = [] := by
  have h : g.signals.filter (changedAt zeroData t) = [] := by
    apply List.filter_eq_nil_iff.mpr
    intro s _
    simp [changedAt, rangeDiffers_zeroData]
  simp [specStep, h]

theorem specBody_zeroData (g : Globals) : specBody g zeroData = [] := by
  unfold specBody
  apply List.flatMap_eq_nil_iff.mpr
  intro t _
  exact specStep_zeroData g t

theorem inRange_scalar0 (nm c : String) :
    ∀ s ∈ [({ name := nm, hiIndex := 0, loIndex := 0, code := c } : Signal)], s.inRange := by
  intro s hs
  rw [List.mem_singleton] at hs
  subst hs
  exact ⟨le_refl _, le_refl _, by norm_num⟩

/-! ## Change detection and timestamps -/

theorem signalLoop_split (g : Globals) (data : RawData) (t : Int) (ht1 : 1 ≤ t) (ht : t ≤ 511)
    (pre post : List Signal) (s : Signal) (hall : ∀ x ∈ pre ++ s :: post, x.inRange) :
    ∃ (before after : List String) (flag : Bool),
      signalLoop g data t pre true = .ok before ∧
      signalLoop g data t post flag = .ok after ∧
      signalLoop g data t (pre ++ s :: post) true =
        .ok (before ++
          (if changedAt data t s then
            (if before.isEmpty then [timeLine g t] else []) ++ [specValueLine data t s]
           else []) ++ after) := by
  have hpre : ∀ x ∈ pre, x.inRange := fun x hx => hall x (List.mem_append_left _ hx)
  have hpost : ∀ x ∈ post, x.inRange :=
    fun x hx => hall x (List.mem_append_right _ (List.mem_cons_of_mem _ hx))
  refine ⟨_, _, (pre.filter (changedAt data t)).isEmpty && !(changedAt data t s),
    signalLoop_eq g data t ht1 ht pre hpre true,
    signalLoop_eq g data t ht1 ht post hpost _, ?_⟩
  rw [signalLoop_eq g data t ht1 ht _ hall true, List.filter_append, List.filter_cons]
  cases hF : pre.filter (changedAt data t) <;> cases hc : changedAt data t s <;>
    cases hP : post.filter (changedAt data t) <;> simp

theorem range'_split (t : Nat) (ht1 : 1 ≤ t) (ht : t ≤ 511) :
    List.range' 1 511 = List.range' 1 (t - 1) ++ t :: List.range' (t + 1) (511 - t) := by
  have h1 := List.range'_append 1 (t - 1) (511 - (t - 1)) 1
  have h2 : 511 - (t - 1) = (511 - t) + 1 := by omega
  have h3 : 1 + 1 * (t - 1) = t := by omega
  have h4 : 511 - (t - 1) + (t - 1) = 511 := by omega
  rw [h3, h4, h2, List.range'_succ] at h1
  exact h1.symm

theorem allInRange_bus : AllInRange busGlobals := by
  intro s hs
  simp only [busGlobals, List.mem_cons, List.mem_singleton, List.not_mem_nil, or_false] at hs
  rcases hs with rfl | rfl
  · exact ⟨by decide, by decide, by decide⟩
  · exact ⟨by decide, by decide, by decide⟩

/-- C1: change detection in `writeVarChanges`. Let the signal `S` stand in the table
between the entries `pre` and `post`, every entry of the table with
`0 <= lo <= hi <= 127`, and let `t` be a time step in `1 .. 511`. The output of
`writeVarChanges` is, in this order: what the time loop writes for the steps
`1 .. t-1`; what the signal loop of step `t` writes for the entries before `S`;
the lines of `S` at step `t`; what the signal loop of step `t` writes for the entries
after `S`; what the time loop writes for the steps `t+1 .. 511`; the closing
timestamp. The lines of `S` at step `t` are: nothing, when the short-circuiting scan
finds no change; otherwise the value line that `writeVarChange` renders for `S` at
time `t`, after the timestamp of step `t` when no earlier entry has written one. The
scan returns the result of the full comparison of the two bit ranges, which is true
exactly when some bit `b` in `[lo, hi]` has
`getDataBitAtTime(b, t-1) != getDataBitAtTime(b, t)`. -/
theorem change_detection (g : Globals) (data : RawData) (pre post : List Signal) (s : Signal)
    (t : Nat) (htable : g.signals = pre ++ s :: post) (hrange : AllInRange g)
    (ht1 : 1 ≤ t) (ht : t ≤ 511) :
    ∃ (earlier before after later : List String) (line : String),
      timeLoop g data (t - 1) 1 = .ok earlier ∧
      signalLoop g data t pre true = .ok before ∧
      (∃ flag, signalLoop g data t post flag = .ok after) ∧
      timeLoop g data (511 - t) ((t : Int) + 1) = .ok later ∧
      writeVarChange data s t = .ok line ∧
      changeScan data s.loIndex t (s.hiIndex - s.loIndex + 1).toNat =
        .ok (changedAt data t s) ∧
      (changedAt data t s = true ↔ specChanged data s t) ∧
      writeVarChanges g data =
        .ok (earlier ++
          (before ++
            (if changedAt data t s then
              (if before.isEmpty then [timeLine g t] else []) ++ [line]
             else []) ++ after) ++
          later ++ [timeLine g 512]) := by
  have hsr : s.inRange := hrange s (by rw [htable]; simp)
  have hall : ∀ x ∈ pre ++ s :: post, x.inRange := by
    intro x hx
    exact hrange x (by rw [htable]; exact hx)
  have ht1i : (1 : Int) ≤ t := by exact_mod_cast ht1
  have hti : (t : Int) ≤ 511 := by exact_mod_cast ht
  obtain ⟨before, after, flag, hb, ha, hwhole⟩ :=
    signalLoop_split g data t ht1i hti pre post s hall
  have hearly := timeLoop_eq g data hrange (t - 1) 1 (le_refl _) (by omega)
  have hlater := timeLoop_eq g data hrange (511 - t) (t + 1) (by omega) (by omega)
  have hstep : specStep g data (t : Int) = before ++
      (if changedAt data t s then
        (if before.isEmpty then [timeLine g t] else []) ++ [specValueLine data t s]
       else []) ++ after := by
    have h1 := signalLoop_step g data t ht1i hti hrange
    rw [htable, hwhole] at h1
    exact (Except.ok.inj h1).symm
  simp only [Nat.cast_one] at hearly
  have hc : ((t + 1 : Nat) : Int) = (t : Int) + 1 := by push_cast; rfl
  rw [hc] at hlater
  refine ⟨(List.range' 1 (t - 1)).flatMap fun (u : Nat) => specStep g data (u : Int),
    before, after,
    (List.range' (t + 1) (511 - t)).flatMap fun (u : Nat) => specStep g data (u : Int),
    specValueLine data t s, hearly, hb, ⟨flag, ha⟩, hlater,
    writeVarChange_eq data s t hsr (by omega) hti,
    changeScan_eq data s.loIndex t _ hsr.1
      (by have := hsr.2.1; have := hsr.2.2; omega) ht1i hti,
    changedAt_iff data s t hsr ht1i hti, ?_⟩
  rw [writeVarChanges_eq g data hrange, specBody, range'_split t ht1 ht, List.flatMap_append,
    List.flatMap_cons, hstep]
  simp only [List.append_assoc]

/-- Instance of C1: the four-bit signal `busSignal`, second entry of the table of
`busGlobals`, at time step 1 of `pulseData`. -/
theorem change_detection_witness :
    busGlobals.signals =
      [{ name := "a", hiIndex := 0, loIndex := 0, code := "!" }] ++ busSignal :: [] ∧
    AllInRange busGlobals ∧ 1 ≤ 1 ∧ 1 ≤ 511 ∧
    ∃ (earlier before after later : List String) (line : String),
      timeLoop busGlobals pulseData (1 - 1) 1 = .ok earlier ∧
      signalLoop busGlobals pulseData ((1 : Nat) : Int)
        [{ name := "a", hiIndex := 0, loIndex := 0, code := "!" }] true = .ok before ∧
      (∃ flag, signalLoop busGlobals pulseData ((1 : Nat) : Int) [] flag = .ok after) ∧
      timeLoop busGlobals pulseData (511 - 1) (((1 : Nat) : Int) + 1) = .ok later ∧
      writeVarChange pulseData busSignal ((1 : Nat) : Int) = .ok line ∧
      changeScan pulseData busSignal.loIndex ((1 : Nat) : Int)
          (busSignal.hiIndex - busSignal.loIndex + 1).toNat =
        .ok (changedAt pulseData ((1 : Nat) : Int) busSignal) ∧
      (changedAt pulseData ((1 : Nat) : Int) busSignal = true ↔
        specChanged pulseData busSignal ((1 : Nat) : Int)) ∧
      writeVarChanges busGlobals pulseData =
        .ok (earlier ++
          (before ++
            (if changedAt pulseData ((1 : Nat) : Int) busSignal then
              (if before.isEmpty then [timeLine busGlobals ((1 : Nat) : Int)] else []) ++
                [line]
             else []) ++ after) ++
          later ++ [timeLine busGlobals 512]) :=
  ⟨rfl, allInRange_bus, by decide, by decide,
    change_detection busGlobals pulseData
      [{ name := "a", hiIndex := 0, loIndex := 0, code := "!" }] [] busSignal 1 rfl
      allInRange_bus (by decide) (by decide)⟩

/-- C2, as stated, fails: `readCtrl` turns `wideScript` into a configuration with
`timeFactor = 4194304`, and with an all-zero sample matrix the closing line is
`#-2147483648`, not the product `512 * 4194304 = 2147483648`. -/
theorem timestamp_markers_overflow :
    readCtrl ovfZero wideScript = .ok wideGlobals ∧
    writeVarChanges wideGlobals zeroData = .ok ["#-2147483648"] ∧
    "#" ++ toString ((512 : Int) * wideGlobals.timeFactor) = "#2147483648" ∧
    ("#-2147483648" : String) ≠ "#2147483648" := by
  refine ⟨rfl, ?_, by decide, by decide⟩
  have hlast : timeLine wideGlobals 512 = "#-2147483648" := by decide
  rw [writeVarChanges_eq wideGlobals zeroData (inRange_scalar0 "a" "!"), specBody_zeroData,
    hlast]
  rfl

/-- C2 (amended): timestamp markers of the change dump. When every signal has
`0 <= lo <= hi <= 127` and `512 * timeFactor` fits an `int`, the output of
`writeVarChanges` is, for `t = 1 .. 511` in order, nothing when no signal changed
at `t` and otherwise the one line `#<t * timeFactor>` followed by the value lines
(`writeVarChange` at time `t`) of the changed signals in table order; then the one
closing line `#<512 * timeFactor>`. The numbers are the exact products. -/
theorem timestamp_markers (g : Globals) (data : RawData)
    (hs : ∀ s ∈ g.signals, s.inRange)
    (hlow : -2147483648 ≤ 512 * g.timeFactor) (hhigh : 512 * g.timeFactor ≤ 2147483647) :
    writeVarChanges g data =
      .ok (((List.range' 1 511).flatMap fun (t : Nat) =>
              if (g.signals.filter (changedAt data t)).isEmpty then []
              else ("#" ++ toString ((t : Int) * g.timeFactor)) ::
                (g.signals.filter (changedAt data t)).map (specValueLine data t)) ++
            ["#" ++ toString (512 * g.timeFactor)]) ∧
    ∀ (t : Nat), 1 ≤ t → t ≤ 511 → ∀ s ∈ g.signals,
      (changedAt data t s = true ↔ specChanged data s t) ∧
      writeVarChange data s t = .ok (specValueLine data t s) := by
  constructor
  · rw [writeVarChanges_eq g data hs]
    have hlast : timeLine g 512 = "#" ++ toString (512 * g.timeFactor) := by
      unfold timeLine; rw [wrap32_of_fits _ hlow hhigh]
    have hbody : specBody g data = (List.range' 1 511).flatMap fun (t : Nat) =>
        if (g.signals.filter (changedAt data t)).isEmpty then []
        else ("#" ++ toString ((t : Int) * g.timeFactor)) ::
          (g.signals.filter (changedAt data t)).map (specValueLine data t) := by
      unfold specBody
      apply List.flatMap_congr
      intro t ht
      have hmem := List.mem_range'_1.mp ht
      have hw : wrap32 ((t : Int) * g.timeFactor) = (t : Int) * g.timeFactor := by
        apply wrap32_of_fits
        · have : (1 : Int) ≤ t := by exact_mod_cast hmem.1
          have : (t : Int) ≤ 511 := by omega
          nlinarith
        · have : (1 : Int) ≤ t := by exact_mod_cast hmem.1
          have : (t : Int) ≤ 511 := by omega
          nlinarith
      simp only [specStep, timeLine, hw]
    rw [hlast, hbody]
  · intro t ht1 ht s hmem
    exact ⟨changedAt_iff data s t (hs s hmem) (by exact_mod_cast ht1) (by exact_mod_cast ht),
      writeVarChange_eq data s t (hs s hmem) (by omega) (by exact_mod_cast ht)⟩

/-- Instance of C2 (amended): `scenarioGlobals` on `pulseData`. -/
theorem timestamp_markers_witness :
    (∀ s ∈ scenarioGlobals.signals, s.inRange) ∧
    -2147483648 ≤ 512 * scenarioGlobals.timeFactor ∧
    512 * scenarioGlobals.timeFactor ≤ 2147483647 ∧
    writeVarChanges scenarioGlobals pulseData =
      .ok (((List.range' 1 511).flatMap fun (t : Nat) =>
              if (scenarioGlobals.signals.filter (changedAt pulseData t)).isEmpty then []
              else ("#" ++ toString ((t : Int) * scenarioGlobals.timeFactor)) ::
                (scenarioGlobals.signals.filter (changedAt pulseData t)).map
                  (specValueLine pulseData t)) ++
            ["#" ++ toString (512 * scenarioGlobals.timeFactor)]) :=
  ⟨inRange_scalar0 "a" "!", by decide, by decide,
    (timestamp_markers scenarioGlobals pulseData (inRange_scalar0 "a" "!")
      (by decide) (by decide)).1⟩

/-! ## Bit addressing -/

/-- C4: bit addressing of `getDataBitAtTime`. For `t` in `[0, 511]` and `b` in
`[0, 127]` the result is 1 if bit `b mod 8` of byte `data[t][15 - b/8]` is set and
0 otherwise; `b -> (15 - b/8, b mod 8)` maps `[0, 127]` into `[0, 15] x [0, 7]`,
`(k, s) -> (15 - k) * 8 + s` maps back, the two are inverse to each other, and so
different `(t, b)` pairs address different stored bits. -/
theorem bit_addressing :
    (∀ (data : RawData) (t b : Nat), t ≤ 511 → b ≤ 127 →
      getDataBitAtTime data b t =
        .ok (if (data t (15 - b / 8)).testBit (b % 8) then 1 else 0)) ∧
    (∀ b : Nat, b ≤ 127 →
      byteOf b ≤ 15 ∧ shiftOf b ≤ 7 ∧ bitIndexOf (byteOf b) (shiftOf b) = b) ∧
    (∀ k s : Nat, k ≤ 15 → s ≤ 7 →
      bitIndexOf k s ≤ 127 ∧ byteOf (bitIndexOf k s) = k ∧ shiftOf (bitIndexOf k s) = s) ∧
    (∀ t b t1 b1 : Nat, b ≤ 127 → b1 ≤ 127 →
      (t, byteOf b, shiftOf b) = (t1, byteOf b1, shiftOf b1) → (t, b) = (t1, b1)) := by
  refine ⟨?_, ?_, ?_, ?_⟩
  · intro data t b ht hb
    rw [getDataBitAtTime_inRange data b t (by omega) (by omega) (by omega) (by omega)]
    simp [bitAt, specBit, byteOf, shiftOf]
  · intro b hb
    unfold byteOf shiftOf bitIndexOf
    omega
  · intro k s hk hs
    unfold byteOf shiftOf bitIndexOf
    omega
  · intro t b t1 b1 hb hb1 h
    simp only [Prod.mk.injEq, byteOf, shiftOf] at h
    obtain ⟨h1, h2, h3⟩ := h
    simp only [Prod.mk.injEq]
    omega

/-- Instance of C4: bit 0 of time step 1 of `pulseData` is set; bit 9 lives at
position 1 of byte 14. -/
theorem bit_addressing_witness :
    (1 : Nat) ≤ 511 ∧ (0 : Nat) ≤ 127 ∧ (9 : Nat) ≤ 127 ∧
    getDataBitAtTime pulseData (0 : Nat) (1 : Nat) = .ok 1 ∧
    (byteOf 9 ≤ 15 ∧ shiftOf 9 ≤ 7 ∧ bitIndexOf (byteOf 9) (shiftOf 9) = 9) :=
  ⟨by decide, by decide, by decide,
    bit_addressing.1 pulseData 1 0 (by decide) (by decide),
    bit_addressing.2.1 9 (by decide)⟩

/-! ## Identifier codes -/

theorem char_toNat_ofNat : ∀ n < 127, (Char.ofNat n).toNat = n := by decide

theorem numberToCode_one (n : Nat) (h : n < 94) :
    numberToCode n = .ok (String.mk [Char.ofNat (n + 33)]) := by
  have h1 : n < NUM_CODES := h
  simp only [numberToCode, h1, if_true, MIN_CODE]

theorem numberToCode_two (n : Nat) (h0 : 94 ≤ n) (h : n < 8930) :
    numberToCode n =
      .ok (String.mk [Char.ofNat ((n - 94) / 94 + 33), Char.ofNat ((n - 94) % 94 + 33)]) := by
  have h1 : ¬ n < NUM_CODES := by show ¬ n < 94; omega
  have h2 : n - NUM_CODES < NUM_CODES * NUM_CODES := by show n - 94 < 94 * 94; omega
  simp only [numberToCode, h1, h2, if_true, if_false]
  rfl

theorem numberToCode_big (n : Nat) (h : 8930 ≤ n) :
    numberToCode n = .error (.error "number too big in numberToCode()") := by
  have h1 : ¬ n < NUM_CODES := by show ¬ n < 94; omega
  have h2 : ¬ n - NUM_CODES < NUM_CODES * NUM_CODES := by show ¬ n - 94 < 94 * 94; omega
  simp only [numberToCode, h1, h2, if_false]

theorem numberToCode_injective (m n : Nat) (hm : m < 8930) (hn : n < 8930)
    (h : numberToCode m = numberToCode n) : m = n := by
  have hdiv : ∀ k : Nat, k < 8930 → (k - 94) / 94 + 33 < 127 := fun k hk => by omega
  have hmod : ∀ k : Nat, (k - 94) % 94 + 33 < 127 := fun k => by omega
  by_cases hm1 : m < 94 <;> by_cases hn1 : n < 94
  · rw [numberToCode_one m hm1, numberToCode_one n hn1] at h
    have hc := List.head_eq_of_cons_eq (congrArg String.data (Except.ok.inj h))
    have := congrArg Char.toNat hc
    rw [char_toNat_ofNat _ (by omega), char_toNat_ofNat _ (by omega)] at this
    omega
  · rw [numberToCode_one m hm1, numberToCode_two n (by omega) hn] at h
    have hl := congrArg List.length (congrArg String.data (Except.ok.inj h))
    simp at hl
  · rw [numberToCode_two m (by omega) hm, numberToCode_one n hn1] at h
    have hl := congrArg List.length (congrArg String.data (Except.ok.inj h))
    simp at hl
  · rw [numberToCode_two m (by omega) hm, numberToCode_two n (by omega) hn] at h
    have hl := congrArg String.data (Except.ok.inj h)
    simp only [List.cons.injEq, and_true] at hl
    have h1 := congrArg Char.toNat hl.1
    have h2 := congrArg Char.toNat hl.2
    rw [char_toNat_ofNat _ (hdiv m hm), char_toNat_ofNat _ (hdiv n hn)] at h1
    rw [char_toNat_ofNat _ (hmod m), char_toNat_ofNat _ (hmod n)] at h2
    omega

/-- C6: value of `numberToCode`. For `n` in `[0, 94)` the code is the single
character with code point `n + '!'`; for `n` in `[94, 94 + 94^2)` it is the two
characters with code points `'!' + (n - 94) / 94` and `'!' + (n - 94) mod 94`, in
this order; and `numberToCode` fails, with the "number too big" error, if and only
if `n >= 94 + 94^2 = 8930`. -/
theorem code_value :
    (∀ n : Nat, n < 94 → ∃ c, numberToCode n = .ok c ∧
      c.data.map Char.toNat = [n + '!'.toNat]) ∧
    (∀ n : Nat, 94 ≤ n → n < 94 + 94 ^ 2 → ∃ c, numberToCode n = .ok c ∧
      c.data.map Char.toNat = ['!'.toNat + (n - 94) / 94, '!'.toNat + (n - 94) % 94]) ∧
    (∀ n : Nat, (∃ e, numberToCode n = .error e) ↔ 94 + 94 ^ 2 ≤ n) ∧
    (∀ n : Nat, 94 + 94 ^ 2 ≤ n →
      numberToCode n = .error (.error "number too big in numberToCode()")) ∧
    94 + 94 ^ 2 = 8930 ∧ NUM_CODES = 94 := by
  refine ⟨?_, ?_, ?_, ?_, by norm_num, rfl⟩
  · intro n hn
    refine ⟨_, numberToCode_one n hn, ?_⟩
    simp only [List.map_cons, List.map_nil, char_toNat_ofNat (n + 33) (by omega)]
    rfl
  · intro n h0 h1
    have h1b : n < 8930 := by norm_num at h1; exact h1
    refine ⟨_, numberToCode_two n h0 h1b, ?_⟩
    simp only [List.map_cons, List.map_nil, char_toNat_ofNat ((n - 94) / 94 + 33) (by omega),
      char_toNat_ofNat ((n - 94) % 94 + 33) (by omega)]
    have h33 : '!'.toNat = 33 := rfl
    rw [h33, Nat.add_comm 33, Nat.add_comm 33]
  · intro n
    constructor
    · rintro ⟨e, he⟩
      by_contra hlt
      have hlt2 : n < 8930 := by norm_num at hlt; exact hlt
      by_cases h94 : n < 94
      · rw [numberToCode_one n h94] at he; cases he
      · rw [numberToCode_two n (by omega) hlt2] at he; cases he
    · intro h
      exact ⟨_, numberToCode_big n (by norm_num at h; exact h)⟩
  · intro n h
    exact numberToCode_big n (by norm_num at h; exact h)

/-- Instance of C6: numbers 0, 94 and 8929 get the codes `!`, `!!` and `~~`, and
8930 is refused. -/
theorem code_value_witness :
    (0 : Nat) < 94 ∧ (94 : Nat) ≤ 8929 ∧ (8929 : Nat) < 94 + 94 ^ 2 ∧
    (∃ c, numberToCode 0 = .ok c ∧ c.data.map Char.toNat = [0 + '!'.toNat]) ∧
    (∃ c, numberToCode 8929 = .ok c ∧
      c.data.map Char.toNat = ['!'.toNat + (8929 - 94) / 94, '!'.toNat + (8929 - 94) % 94]) ∧
    numberToCode 8930 = .error (.error "number too big in numberToCode()") :=
  ⟨by decide, by decide, by norm_num,
    code_value.1 0 (by decide),
    code_value.2.1 8929 (by decide) (by norm_num),
    code_value.2.2.2.1 8930 (by norm_num)⟩

/-! ## Control file reader -/

theorem readCtrl_scenario (ovf : String → Int) :
    readCtrl ovf scenarioScript = .ok scenarioGlobals := by
  rfl

theorem isNumber_iff (str : String) : isNumber str = true ↔ specDigits str := by
  unfold isNumber specDigits
  cases hd : str.data with
  | nil => simp
  | cons c cs => simp

theorem isName_iff (str : String) : isName str = true ↔ specIdentifier str := by
  unfold isName specIdentifier
  cases hd : str.data with
  | nil => simp
  | cons c cs =>
    have hex : (∃ c1 cs1, c :: cs = c1 :: cs1 ∧ (c1.isAlpha = true ∨ c1 = '_') ∧
          ∀ d ∈ cs1, d.isAlpha = true ∨ d.isDigit = true ∨ d = '_') ↔
        ((c.isAlpha = true ∨ c = '_') ∧
          ∀ d ∈ cs, d.isAlpha = true ∨ d.isDigit = true ∨ d = '_') := by
      constructor
      · rintro ⟨c1, cs1, heq, h1, h2⟩
        obtain ⟨hc, hcs⟩ := List.cons.inj heq
        subst hc; subst hcs
        exact ⟨h1, h2⟩
      · rintro ⟨h1, h2⟩
        exact ⟨c, cs, rfl, h1, h2⟩
    have hall : (List.all cs fun d => d.isAlphanum || d == '_') = true ↔
        ∀ d ∈ cs, d.isAlpha = true ∨ d.isDigit = true ∨ d = '_' := by
      rw [List.all_eq_true]
      apply forall_congr'
      intro d
      apply imp_congr Iff.rfl
      simp only [Char.isAlphanum, Bool.or_eq_true, beq_iff_eq]
      tauto
    rw [hex, ← hall]
    by_cases ha : c.isAlpha = true
    · simp [ha, Char.isAlphanum]
    · by_cases hu : c = '_'
      · subst hu
        simp
      · simp [ha, hu]

theorem wireStore_ok (g : Globals) (lineno : Nat) (name code : String) (hi lo : Int)
    (hc : numberToCode g.signals.length = .ok code)
    (hh : 0 ≤ hi ∧ hi ≤ 127) (hl : 0 ≤ lo ∧ lo ≤ 127) (hle : lo ≤ hi) :
    wireStore g lineno name hi lo =
      .ok { g with signals := g.signals ++
        [{ name := name, hiIndex := hi, loIndex := lo, code := code }] } := by
  have h1 : ¬ (hi < 0 ∨ hi > 127) := by omega
  have h2 : ¬ (lo < 0 ∨ lo > 127) := by omega
  have h3 : ¬ hi < lo := by omega
  simp only [wireStore, h1, h2, h3, if_false, hc]

theorem wireStore_error (g : Globals) (lineno : Nat) (name : String) (hi lo : Int)
    (h : ¬ ((0 ≤ hi ∧ hi ≤ 127) ∧ (0 ≤ lo ∧ lo ≤ 127) ∧ lo ≤ hi)) :
    ∃ e, wireStore g lineno name hi lo = .error e := by
  unfold wireStore
  by_cases h1 : hi < 0 ∨ hi > 127
  · exact ⟨_, if_pos h1⟩
  · by_cases h2 : lo < 0 ∨ lo > 127
    · rw [if_neg h1, if_pos h2]; exact ⟨_, rfl⟩
    · have h3 : hi < lo := by omega
      rw [if_neg h1, if_neg h2, if_pos h3]; exact ⟨_, rfl⟩

theorem wireDirective_spec (ovf : String → Int) (g : Globals) (lineno : Nat)
    (toks : List String) (code : String) (hc : numberToCode g.signals.length = .ok code) :
    (specWireLine ovf toks → wireDirective ovf g lineno toks = .ok (wireAppend ovf g toks code)) ∧
    (¬ specWireLine ovf toks → ∃ e, wireDirective ovf g lineno toks = .error e) := by
  rcases toks with _ | ⟨t0, _ | ⟨t1, _ | ⟨t2, _ | ⟨t3, _ | ⟨t4, _ | ⟨t5, rest⟩⟩⟩⟩⟩⟩
  · simp [specWireLine, wireDirective]
  · simp [specWireLine, wireDirective]
  · simp [specWireLine, wireDirective]
  · -- three tokens: low = hi
    simp only [specWireLine, wireDirective, wireHi, wireLow, wireAppend, List.length_cons,
      List.length_nil, List.getD_cons_succ, List.getD_cons_zero, ← isName_iff, ← isNumber_iff]
    by_cases hn : isName t1 = true
    · by_cases hd : isNumber t2 = true
      · simp only [hn, hd, Bool.not_true, Bool.false_eq_true, if_false]
        constructor
        · intro h
          exact wireStore_ok g lineno t1 code _ _ hc h.2.2.2.2.1 h.2.2.2.2.1 (le_refl _)
        · intro h
          apply wireStore_error
          intro hh
          apply h
          simp [hh.1]
      · simp [hn, hd]
    · simp [hn]
  · simp [specWireLine, wireDirective]
  · -- five tokens: separator and low index
    simp only [specWireLine, wireDirective, wireHi, wireLow, wireAppend, List.length_cons,
      List.length_nil, List.getD_cons_succ, List.getD_cons_zero, ← isName_iff, ← isNumber_iff]
    by_cases hn : isName t1 = true
    · by_cases hd : isNumber t2 = true
      · by_cases hs : t3 = ":"
        · by_cases hd4 : isNumber t4 = true
          · simp only [hn, hd, hs, hd4, Bool.not_true, Bool.false_eq_true, if_false, bne_self_eq_false]
            constructor
            · intro h
              have h5 := h.2.2.2.2
              simp at h5
              exact wireStore_ok g lineno t1 code _ _ hc h5.1 h5.2.1 h5.2.2
            · intro h
              apply wireStore_error
              intro hh
              apply h
              simp [hh.1, hh.2.1, hh.2.2]
          · simp [hn, hd, hs, hd4]
        · simp [hn, hd, hs]
      · simp [hn, hd]
    · simp [hn]
  · constructor
    · intro h
      have := h.1
      simp at this
    · intro _
      exact ⟨_, rfl⟩

theorem lt_of_numberToCode_ok (n : Nat) (c : String) (h : numberToCode n = .ok c) :
    n < 8930 := by
  by_contra hge
  rw [numberToCode_big n (by omega)] at h
  cases h

theorem ctrlLine_long (ovf : String → Int) (g : Globals) (lineno : Nat) (line : List Char)
    (h : (tokenize line).length > MAX_TOKENS) :
    ctrlLine ovf g lineno line = .error (.ctrlError "too many tokens" lineno) := by
  simp only [ctrlLine, h, if_true]

theorem ctrlLine_short (ovf : String → Int) (g : Globals) (lineno : Nat) (line : List Char)
    (h : ¬ (tokenize line).length > MAX_TOKENS) :
    ctrlLine ovf g lineno line = directive ovf g lineno (tokenize line) := by
  simp only [ctrlLine, h, if_false]

theorem isTimeUnit_iff (u : String) : isTimeUnit u = true ↔ u ∈ specTimeUnits := by
  simp only [isTimeUnit, specTimeUnits, List.mem_cons, List.mem_singleton, List.not_mem_nil,
    or_false, Bool.not_eq_true', Bool.and_eq_false_imp, Bool.and_eq_true, bne_iff_ne, ne_eq,
    bne_eq_false_iff_eq]
  tauto

theorem directive_timescale (ovf : String → Int) (g : Globals) (lineno : Nat)
    (rest : List String) :
    directive ovf g lineno ("timescale" :: rest) =
      timescaleDirective ovf g lineno ("timescale" :: rest) := by
  have h1 : ("timescale" : String).data.head? ≠ some '#' := by decide
  simp only [directive, h1, if_false, if_true]

theorem timescaleDirective_spec (ovf : String → Int) (g : Globals) (lineno : Nat)
    (toks : List String) :
    (specTimescaleLine toks →
      timescaleDirective ovf g lineno toks = .ok (timescaleSet ovf g toks)) ∧
    (¬ specTimescaleLine toks → ∃ e, timescaleDirective ovf g lineno toks = .error e) := by
  rcases toks with _ | ⟨t0, _ | ⟨t1, _ | ⟨t2, _ | ⟨t3, rest⟩⟩⟩⟩
  · simp [specTimescaleLine, timescaleDirective]
  · simp [specTimescaleLine, timescaleDirective]
  · simp [specTimescaleLine, timescaleDirective]
  · simp only [specTimescaleLine, timescaleDirective, timescaleSet, List.length_cons,
      List.length_nil, List.getD_cons_succ, List.getD_cons_zero, ← isNumber_iff,
      ← isTimeUnit_iff]
    by_cases hd : isNumber t1 = true
    · by_cases hu : isTimeUnit t2 = true
      · simp [hd, hu]
      · simp [hd, hu]
    · simp [hd]
  · simp [specTimescaleLine, timescaleDirective]

theorem ctrlLine_timescale (ovf : String → Int) (g : Globals) (lineno : Nat) (line : List Char)
    (hfirst : (tokenize line).head? = some "timescale") :
    (specTimescaleLine (tokenize line) →
      ctrlLine ovf g lineno line = .ok (timescaleSet ovf g (tokenize line))) ∧
    (¬ specTimescaleLine (tokenize line) → ∃ e, ctrlLine ovf g lineno line = .error e) := by
  by_cases hlen : (tokenize line).length > MAX_TOKENS
  · have hns : ¬ specTimescaleLine (tokenize line) := by
      intro h
      have h1 := h.1
      unfold MAX_TOKENS at hlen
      omega
    exact ⟨fun h => absurd h hns, fun _ => ⟨_, ctrlLine_long ovf g lineno line hlen⟩⟩
  · rw [ctrlLine_short ovf g lineno line hlen]
    obtain ⟨rest, hrest⟩ : ∃ rest, tokenize line = "timescale" :: rest := by
      cases ht : tokenize line with
      | nil => rw [ht] at hfirst; cases hfirst
      | cons a rest =>
        rw [ht] at hfirst
        simp only [List.head?_cons, Option.some.injEq] at hfirst
        exact ⟨rest, by rw [hfirst]⟩
    rw [hrest, directive_timescale]
    exact timescaleDirective_spec ovf g lineno _

/-- C10, as stated, fails: the line `timescale 0 ns` is accepted although its number
is not positive; it sets `timeNumber = 100` and `timeFactor = 0`, and a script with
this line passes `readCtrl`. -/
theorem timescale_zero_accepted :
    ctrlLine ovfZero Globals.init 1 "timescale 0 ns\n".data =
      .ok { timeNumber := 100, timeFactor := 0, timeUnit := "ns", module := none,
            signals := [] } ∧
    tokenize "timescale 0 ns\n".data = ["timescale", "0", "ns"] ∧
    decimalValue "0".data = 0 ∧
    readCtrl ovfZero "timescale 0 ns\nmodule m\nwire a 0\n" =
      .ok { timeNumber := 100, timeFactor := 0, timeUnit := "ns", module := some "m",
            signals := [{ name := "a", hiIndex := 0, loIndex := 0, code := "!" }] } := by
  refine ⟨rfl, rfl, rfl, rfl⟩

/-- C10 (amended): validation of the `timescale` directive. A line whose first token
is `timescale` is accepted if and only if it has exactly two arguments, the first
is a non-empty string of decimal digits (zero included) and the second is exactly
one of s, ms, us, ns, ps, fs; every other `timescale` line is an error. On
acceptance `timeNumber`, `timeFactor` and `timeUnit` are set and nothing else. -/
theorem timescale_validation (ovf : String → Int) (g : Globals) (lineno : Nat)
    (line : List Char) (hfirst : (tokenize line).head? = some "timescale") :
    ((∃ g1, ctrlLine ovf g lineno line = .ok g1) ↔ specTimescaleLine (tokenize line)) ∧
    (∀ g1, ctrlLine ovf g lineno line = .ok g1 → g1 = timescaleSet ovf g (tokenize line)) := by
  obtain ⟨hyes, hno⟩ := ctrlLine_timescale ovf g lineno line hfirst
  refine ⟨⟨?_, fun h => ⟨_, hyes h⟩⟩, ?_⟩
  · rintro ⟨g1, hg1⟩
    by_contra hns
    obtain ⟨e, he⟩ := hno hns
    rw [he] at hg1
    cases hg1
  · intro g1 hg1
    by_cases hs : specTimescaleLine (tokenize line)
    · rw [hyes hs] at hg1
      exact (Except.ok.inj hg1).symm
    · obtain ⟨e, he⟩ := hno hs
      rw [he] at hg1
      cases hg1

theorem splitTimescale_pos (n : Int) (hpos : 0 < n) :
    ((splitTimescale n).1 = 1 ∨ (splitTimescale n).1 = 10 ∨ (splitTimescale n).1 = 100) ∧
    (splitTimescale n).1 * (splitTimescale n).2 = n ∧
    ((splitTimescale n).1 = 100 ↔ n % 100 = 0) ∧
    ((splitTimescale n).1 = 10 ↔ n % 10 = 0 ∧ n % 100 ≠ 0) ∧
    ((splitTimescale n).1 = 1 ↔ ¬ (n % 100 = 0) ∧ ¬ (n % 10 = 0 ∧ n % 100 ≠ 0)) ∧
    1 ≤ (splitTimescale n).2 := by
  have h100 : Int.tmod n 100 = n % 100 := Int.tmod_eq_emod (by omega) (by decide)
  have h10 : Int.tmod n 10 = n % 10 := Int.tmod_eq_emod (by omega) (by decide)
  have d100 : Int.tdiv n 100 = n / 100 := Int.tdiv_eq_ediv (by omega) (by decide)
  have d10 : Int.tdiv n 10 = n / 10 := Int.tdiv_eq_ediv (by omega) (by decide)
  unfold splitTimescale
  rw [h100, h10, d100, d10]
  by_cases c100 : n % 100 = 0
  · simp only [if_pos c100]
    refine ⟨by decide, by omega, ?_, ?_, ?_, by omega⟩ <;> constructor <;> intro h <;> (try dsimp only at h ⊢) <;> omega
  · by_cases c10 : n % 10 = 0
    · simp only [if_neg c100, if_pos c10]
      refine ⟨by decide, by omega, ?_, ?_, ?_, by omega⟩ <;> constructor <;> intro h <;> (try dsimp only at h ⊢) <;> omega
    · simp only [if_neg c100, if_neg c10]
      refine ⟨by decide, by omega, ?_, ?_, ?_, by omega⟩ <;> constructor <;> intro h <;> (try dsimp only at h ⊢) <;> omega

theorem atoi_of_fits (ovf : String → Int) (str : String)
    (h : (decimalValue str.data : Int) ≤ INT_MAX) : atoi ovf str = decimalValue str.data := by
  simp only [atoi, h, if_true]

/-- C3, as stated, fails: 4294967196 is a positive number, and the line
`timescale 4294967196 ns` is accepted, but the number does not fit an `int`; with
the usual `atoi` the line leaves `timeNumber = 100` and `timeFactor = -1`, whose
product is not the number requested, and `timeFactor >= 1` fails. -/
theorem timescale_overflow :
    ctrlLine ovfWrap Globals.init 1 "timescale 4294967196 ns\n".data =
      .ok { Globals.init with timeNumber := 100, timeFactor := -1, timeUnit := "ns" } ∧
    specTimescaleLine (tokenize "timescale 4294967196 ns\n".data) ∧
    decimalValue ((tokenize "timescale 4294967196 ns\n".data).getD 1 "").data = 4294967196 ∧
    (100 : Int) * (-1) ≠ 4294967196 ∧ ¬ (1 : Int) ≤ -1 := by
  refine ⟨rfl, ⟨rfl, ⟨by decide, by decide⟩, by decide⟩, rfl, by decide, by decide⟩

/-- C3 (amended): time-scale decomposition in the `timescale` branch. When the number
`requested` that the digits of an accepted `timescale` line denote is positive and
fits an `int` (at most 2147483647), the line leaves `timeNumber` in `{1, 10, 100}`
with `timeNumber * timeFactor = requested`; `timeNumber = 100` exactly when
`requested mod 100 = 0`, `timeNumber = 10` exactly when `requested mod 10 = 0` and
`requested mod 100 != 0`, and `timeNumber = 1` otherwise; `timeFactor >= 1`, and
`timeNumber` is the largest of 100, 10, 1 that divides `requested`. -/
theorem timescale_decomposition (ovf : String → Int) (g : Globals) (lineno : Nat)
    (line : List Char) (requested : Int)
    (hfirst : (tokenize line).head? = some "timescale")
    (hline : specTimescaleLine (tokenize line))
    (hreq : (decimalValue ((tokenize line).getD 1 "").data : Int) = requested)
    (hpos : 0 < requested) (hfit : requested ≤ INT_MAX) :
    ∃ g1, ctrlLine ovf g lineno line = .ok g1 ∧
      (g1.timeNumber = 1 ∨ g1.timeNumber = 10 ∨ g1.timeNumber = 100) ∧
      g1.timeNumber * g1.timeFactor = requested ∧
      (g1.timeNumber = 100 ↔ requested % 100 = 0) ∧
      (g1.timeNumber = 10 ↔ requested % 10 = 0 ∧ requested % 100 ≠ 0) ∧
      (g1.timeNumber = 1 ↔ ¬ (requested % 100 = 0) ∧ ¬ (requested % 10 = 0 ∧ requested % 100 ≠ 0)) ∧
      1 ≤ g1.timeFactor ∧
      (∀ d : Int, d = 1 ∨ d = 10 ∨ d = 100 → requested % d = 0 → d ≤ g1.timeNumber) := by
  have hatoi : atoi ovf ((tokenize line).getD 1 "") = requested := by
    rw [atoi_of_fits ovf _ (by rw [hreq]; exact hfit), hreq]
  obtain ⟨h1, h2, h3, h4, h5, h6⟩ := splitTimescale_pos requested hpos
  refine ⟨_, (ctrlLine_timescale ovf g lineno line hfirst).1 hline, ?_⟩
  simp only [timescaleSet, hatoi]
  refine ⟨h1, h2, h3, h4, h5, h6, ?_⟩
  intro d hd hmod
  rcases hd with rfl | rfl | rfl
  · rcases h1 with h | h | h <;> rw [h] <;> decide
  · by_cases c100 : requested % 100 = 0
    · rw [h3.mpr c100]; decide
    · rw [h4.mpr ⟨hmod, c100⟩]
  · rw [h3.mpr hmod]

/-- Instance of C3 (amended): `timescale 250 us` gives `timeNumber = 10`,
`timeFactor = 25`. -/
theorem timescale_decomposition_witness :
    (tokenize "timescale 250 us\n".data).head? = some "timescale" ∧
    specTimescaleLine (tokenize "timescale 250 us\n".data) ∧
    (decimalValue ((tokenize "timescale 250 us\n".data).getD 1 "").data : Int) = 250 ∧
    (0 : Int) < 250 ∧ (250 : Int) ≤ INT_MAX ∧
    ∃ g1, ctrlLine ovfWrap Globals.init 1 "timescale 250 us\n".data = .ok g1 ∧
      g1.timeNumber = 10 ∧ g1.timeFactor = 25 := by
  have hline : specTimescaleLine (tokenize "timescale 250 us\n".data) :=
    ⟨rfl, ⟨by decide, by decide⟩, by decide⟩
  obtain ⟨g1, hg1, -, hmul, -, h10, -⟩ :=
    timescale_decomposition ovfWrap Globals.init 1 "timescale 250 us\n".data 250 rfl hline rfl
      (by decide) (by decide)
  have htn : g1.timeNumber = 10 := h10.mpr ⟨by decide, by decide⟩
  refine ⟨rfl, hline, rfl, by decide, by decide, g1, hg1, htn, ?_⟩
  rw [htn] at hmul
  omega

/-- Instance of C10 (amended): the line `timescale 10 ns`. -/
theorem timescale_validation_witness :
    (tokenize "timescale 10 ns\n".data).head? = some "timescale" ∧
    ((∃ g1, ctrlLine ovfZero Globals.init 1 "timescale 10 ns\n".data = .ok g1) ↔
      specTimescaleLine (tokenize "timescale 10 ns\n".data)) :=
  ⟨rfl, (timescale_validation ovfZero Globals.init 1 "timescale 10 ns\n".data rfl).1⟩

/-! ## Index literals of the `wire` directive -/

theorem wireStore_fails (g : Globals) (lineno : Nat) (name : String) (hi lo : Int) (e : Failure)
    (hc : numberToCode g.signals.length = .error e) :
    ∃ e1, wireStore g lineno name hi lo = .error e1 := by
  unfold wireStore
  rw [hc]
  split_ifs <;> exact ⟨_, rfl⟩

theorem wireDirective_fails (ovf : String → Int) (g : Globals) (lineno : Nat)
    (toks : List String) (e : Failure) (hc : numberToCode g.signals.length = .error e) :
    ∃ e1, wireDirective ovf g lineno toks = .error e1 := by
  unfold wireDirective
  split
  · split_ifs
    · exact ⟨_, rfl⟩
    · exact ⟨_, rfl⟩
    · exact wireStore_fails g lineno _ _ _ e hc
  · split_ifs
    · exact ⟨_, rfl⟩
    · exact ⟨_, rfl⟩
    · exact ⟨_, rfl⟩
    · exact ⟨_, rfl⟩
    · exact wireStore_fails g lineno _ _ _ e hc
  · exact ⟨_, rfl⟩

theorem wireDirective_inv (ovf : String → Int) (g g1 : Globals) (lineno : Nat)
    (toks : List String) (h : wireDirective ovf g lineno toks = .ok g1) :
    ∃ code, numberToCode g.signals.length = .ok code ∧ specWireLine ovf toks ∧
      g1 = wireAppend ovf g toks code := by
  cases hc : numberToCode g.signals.length with
  | error e =>
    obtain ⟨e1, he1⟩ := wireDirective_fails ovf g lineno toks e hc
    rw [he1] at h
    cases h
  | ok code =>
    obtain ⟨hyes, hno⟩ := wireDirective_spec ovf g lineno toks code hc
    by_cases hs : specWireLine ovf toks
    · rw [hyes hs] at h
      exact ⟨code, rfl, hs, (Except.ok.inj h).symm⟩
    · obtain ⟨e1, he1⟩ := hno hs
      rw [he1] at h
      cases h

theorem moduleDirective_signals (g g1 : Globals) (lineno : Nat) (toks : List String)
    (h : moduleDirective g lineno toks = .ok g1) : g1.signals = g.signals := by
  unfold moduleDirective at h
  split at h
  · split_ifs at h
    cases h
    rfl
  · cases h

theorem timescaleDirective_signals (ovf : String → Int) (g g1 : Globals) (lineno : Nat)
    (toks : List String) (h : timescaleDirective ovf g lineno toks = .ok g1) :
    g1.signals = g.signals := by
  obtain ⟨hyes, hno⟩ := timescaleDirective_spec ovf g lineno toks
  by_cases hs : specTimescaleLine toks
  · rw [hyes hs] at h
    rw [← Except.ok.inj h]
    rfl
  · obtain ⟨e1, he1⟩ := hno hs
    rw [he1] at h
    cases h

theorem directive_signals (ovf : String → Int) (g g1 : Globals) (lineno : Nat)
    (toks : List String) (h : directive ovf g lineno toks = .ok g1) :
    g1.signals = g.signals ∨
    ∃ code, numberToCode g.signals.length = .ok code ∧ specWireLine ovf toks ∧
      g1 = wireAppend ovf g toks code := by
  unfold directive at h
  split at h
  · cases h; exact Or.inl rfl
  · split_ifs at h
    · cases h; exact Or.inl rfl
    · exact Or.inl (timescaleDirective_signals ovf g g1 lineno _ h)
    · exact Or.inl (moduleDirective_signals g g1 lineno _ h)
    · exact Or.inr (wireDirective_inv ovf g g1 lineno _ h)

theorem wireAppend_codes (ovf : String → Int) (g : Globals) (toks : List String) (code : String)
    (hc : numberToCode g.signals.length = .ok code) (hg : CodesAssigned g) :
    CodesAssigned (wireAppend ovf g toks code) := by
  intro i s hi
  simp only [wireAppend] at hi
  by_cases hlt : i < g.signals.length
  · rw [List.getElem?_append_left hlt] at hi
    exact hg i s hi
  · rw [List.getElem?_append_right (by omega)] at hi
    by_cases heq : i = g.signals.length
    · subst heq
      simp only [Nat.sub_self, List.getElem?_cons_zero, Option.some.injEq] at hi
      rw [← hi]
      exact hc
    · have hpos : i - g.signals.length = (i - g.signals.length - 1) + 1 := by omega
      rw [hpos] at hi
      simp at hi

theorem wireAppend_inRange (ovf : String → Int) (g : Globals) (toks : List String)
    (code : String) (hs : specWireLine ovf toks) (hg : AllInRange g) :
    AllInRange (wireAppend ovf g toks code) := by
  intro s hmem
  simp only [wireAppend, List.mem_append, List.mem_singleton] at hmem
  rcases hmem with h | h
  · exact hg s h
  · subst h
    obtain ⟨-, -, -, -, hh, hl, hle⟩ := hs
    exact ⟨hl.1, hle, hh.2⟩

theorem ctrlLine_inv (ovf : String → Int) (g g1 : Globals) (lineno : Nat) (line : List Char)
    (h : ctrlLine ovf g lineno line = .ok g1) (hg : CodesAssigned g ∧ AllInRange g) :
    CodesAssigned g1 ∧ AllInRange g1 := by
  unfold ctrlLine at h
  split_ifs at h
  rcases directive_signals ovf g g1 lineno _ h with hsame | ⟨code, hc, hs, rfl⟩
  · exact ⟨fun i s hi => hg.1 i s (hsame ▸ hi), fun s hm => hg.2 s (hsame ▸ hm)⟩
  · exact ⟨wireAppend_codes ovf g _ code hc hg.1, wireAppend_inRange ovf g _ code hs hg.2⟩

theorem ctrlLines_inv (ovf : String → Int) (lines : List (List Char)) (lineno : Nat)
    (g g1 : Globals) (h : ctrlLines ovf lines lineno g = .ok g1)
    (hg : CodesAssigned g ∧ AllInRange g) : CodesAssigned g1 ∧ AllInRange g1 := by
  induction lines generalizing lineno g with
  | nil =>
    cases h
    exact hg
  | cons l ls ih =>
    unfold ctrlLines at h
    cases hl : ctrlLine ovf g lineno l with
    | error e => rw [hl] at h; cases h
    | ok g2 =>
      rw [hl] at h
      exact ih (lineno + 1) g2 h (ctrlLine_inv ovf g g2 lineno l hl hg)

theorem ctrlComplete_eq (g g1 : Globals) (h : ctrlComplete g = .ok g1) : g1 = g := by
  unfold ctrlComplete at h
  split_ifs at h
  cases h
  rfl

theorem readCtrl_inv (ovf : String → Int) (script : String) (g : Globals)
    (h : readCtrl ovf script = .ok g) : CodesAssigned g ∧ AllInRange g := by
  unfold readCtrl at h
  cases hl : ctrlLines ovf (fgetsLines script.data []) 1 Globals.init with
  | error e => rw [hl] at h; cases h
  | ok g2 =>
    rw [hl] at h
    rw [ctrlComplete_eq g2 g h]
    apply ctrlLines_inv ovf _ 1 Globals.init g2 hl
    constructor
    · intro i s hi
      simp [Globals.init] at hi
    · intro s hm
      simp [Globals.init] at hm

/-- C5: uniqueness of identifier codes. `numberToCode` is injective on
`[0, 94 + 94^2)`; the code has length 1 for `n` in `[0, 94)` and length 2 for `n` in
`[94, 94 + 94^2)`, so a one-symbol code never equals a two-symbol code; every
symbol lies in `'!' .. '~'`. After a successful `readCtrl` the `i`-th signal of the
table carries `numberToCode(i)` and no two signals share a code. -/
theorem code_uniqueness :
    (∀ m n : Nat, m < 94 + 94 ^ 2 → n < 94 + 94 ^ 2 → m ≠ n →
      numberToCode m ≠ numberToCode n) ∧
    (∀ n : Nat, n < 94 → ∃ c, numberToCode n = .ok c ∧ c.length = 1) ∧
    (∀ n : Nat, 94 ≤ n → n < 94 + 94 ^ 2 → ∃ c, numberToCode n = .ok c ∧ c.length = 2) ∧
    (∀ n : Nat, n < 94 + 94 ^ 2 → ∃ c, numberToCode n = .ok c ∧
      ∀ ch ∈ c.data, '!'.toNat ≤ ch.toNat ∧ ch.toNat ≤ '~'.toNat) ∧
    (∀ (ovf : String → Int) (script : String) (g : Globals),
      readCtrl ovf script = .ok g →
      (∀ (i : Nat) (s : Signal), g.signals[i]? = some s → numberToCode i = .ok s.code) ∧
      (∀ (i j : Nat) (a b : Signal), g.signals[i]? = some a → g.signals[j]? = some b →
        i ≠ j → a.code ≠ b.code)) := by
  have hb : (94 : Nat) + 94 ^ 2 = 8930 := by norm_num
  rw [hb]
  have h33 : '!'.toNat = 33 := rfl
  have h126 : '~'.toNat = 126 := rfl
  refine ⟨?_, ?_, ?_, ?_, ?_⟩
  · intro m n hm hn hne h
    exact hne (numberToCode_injective m n hm hn h)
  · intro n hn
    exact ⟨_, numberToCode_one n hn, rfl⟩
  · intro n h0 hn
    exact ⟨_, numberToCode_two n h0 hn, rfl⟩
  · intro n hn
    by_cases h94 : n < 94
    · refine ⟨_, numberToCode_one n h94, ?_⟩
      intro ch hch
      simp only [List.mem_singleton] at hch
      rw [h33, h126, hch, char_toNat_ofNat _ (by omega)]
      omega
    · refine ⟨_, numberToCode_two n (by omega) hn, ?_⟩
      intro ch hch
      simp only [List.mem_cons, List.mem_singleton, List.not_mem_nil, or_false] at hch
      rcases hch with hch | hch
      · rw [h33, h126, hch, char_toNat_ofNat _ (by omega)]
        omega
      · rw [h33, h126, hch, char_toNat_ofNat _ (by omega)]
        omega
  · intro ovf script g hg
    have hinv := (readCtrl_inv ovf script g hg).1
    refine ⟨hinv, ?_⟩
    intro i j a b ha hb2 hne hcode
    have hi := hinv i a ha
    have hj := hinv j b hb2
    rw [hcode] at hi
    exact hne (numberToCode_injective i j (lt_of_numberToCode_ok i _ hi)
      (lt_of_numberToCode_ok j _ hj) (hi.trans hj.symm))

/-- Instance of C5: numbers 5 and 99 get different codes, and the one signal of
`scenarioScript` carries the code of position 0. -/
theorem code_uniqueness_witness :
    (5 : Nat) < 94 + 94 ^ 2 ∧ (99 : Nat) < 94 + 94 ^ 2 ∧ (5 : Nat) ≠ 99 ∧
    numberToCode 5 ≠ numberToCode 99 ∧
    readCtrl ovfZero scenarioScript = .ok scenarioGlobals ∧
    (∀ (i : Nat) (s : Signal), scenarioGlobals.signals[i]? = some s →
      numberToCode i = .ok s.code) :=
  ⟨by norm_num, by norm_num, by decide,
    code_uniqueness.1 5 99 (by norm_num) (by norm_num) (by decide),
    readCtrl_scenario ovfZero,
    (code_uniqueness.2.2.2.2 ovfZero scenarioScript scenarioGlobals
      (readCtrl_scenario ovfZero)).1⟩

/-! ## End-to-end scenarios -/

theorem writeVarChanges_scenario_zero :
    writeVarChanges scenarioGlobals zeroData = .ok ["#512"] := by
  have hlast : timeLine scenarioGlobals 512 = "#512" := by decide
  rw [writeVarChanges_eq scenarioGlobals zeroData (inRange_scalar0 "a" "!"), specBody_zeroData,
    hlast]
  rfl

theorem writeVcd_scenario_zero (date : String) :
    writeVcd date scenarioGlobals zeroData =
      .ok ["$date", "\t" ++ date, "$end",
           "$version", "\tdata2vcd converter", "$end",
           "$timescale", "\t10 ns", "$end",
           "$scope module m $end",
           "$var wire 1 ! a $end",
           "$upscope $end", "$enddefinitions $end",
           "#0", "$dumpvars", "0!", "$end",
           "#512"] := by
  have hinit : writeVarInits zeroData scenarioGlobals.signals = .ok ["0!"] := rfl
  have hts : "\t" ++ toString scenarioGlobals.timeNumber ++ " " ++ scenarioGlobals.timeUnit
      = "\t10 ns" := by decide
  have hdefs : writeVarDefs scenarioGlobals = ["$var wire 1 ! a $end"] := by decide
  have hscope : "$scope module " ++ scenarioGlobals.module.getD "(null)" ++ " $end"
      = "$scope module m $end" := by decide
  unfold writeVcd
  rw [hinit, writeVarChanges_scenario_zero]
  simp only [hts, hdefs, hscope]
  rfl

theorem bitAt_pulse_zero (b t : Int) (ht : 2 ≤ t) : bitAt pulseData b t = 0 := by
  have h1 : t.toNat ≠ 1 := by omega
  simp [bitAt, specBit, pulseData, h1]

theorem rangeDiffers_pulse (lo t : Int) (ht : 3 ≤ t) (n : Nat) :
    rangeDiffers pulseData lo t n = false := by
  induction n with
  | zero => rfl
  | succ k ih =>
    simp [rangeDiffers, ih, bitAt_pulse_zero _ (t - 1) (by omega), bitAt_pulse_zero _ t (by omega)]

theorem specStep_pulse (g : Globals) (t : Int) (ht : 3 ≤ t) : specStep g pulseData t = [] := by
  have h : g.signals.filter (changedAt pulseData t) = [] := by
    apply List.filter_eq_nil_iff.mpr
    intro s _
    simp [changedAt, rangeDiffers_pulse _ t ht]
  simp [specStep, h]

theorem specBody_scenario_pulse :
    specBody scenarioGlobals pulseData = ["#1", "1!", "#2", "0!"] := by
  have hsplit : List.range' 1 511 = 1 :: 2 :: List.range' 3 509 := by
    rw [show (511 : Nat) = 509 + 1 + 1 from rfl, List.range'_succ, List.range'_succ]
  have h1 : specStep scenarioGlobals pulseData ((1 : Nat) : Int) = ["#1", "1!"] := by decide
  have h2 : specStep scenarioGlobals pulseData ((2 : Nat) : Int) = ["#2", "0!"] := by decide
  have hrest : (List.range' 3 509).flatMap
      (fun (t : Nat) => specStep scenarioGlobals pulseData (t : Int)) = [] := by
    apply List.flatMap_eq_nil_iff.mpr
    intro t ht
    have := (List.mem_range'_1.mp ht).1
    exact specStep_pulse scenarioGlobals t (by omega)
  unfold specBody
  rw [hsplit, List.flatMap_cons, List.flatMap_cons, hrest, h1, h2]
  rfl

theorem writeVarChanges_scenario_pulse :
    writeVarChanges scenarioGlobals pulseData = .ok ["#1", "1!", "#2", "0!", "#512"] := by
  have hlast : timeLine scenarioGlobals 512 = "#512" := by decide
  rw [writeVarChanges_eq scenarioGlobals pulseData (inRange_scalar0 "a" "!"),
    specBody_scenario_pulse, hlast]
  rfl

/-- C7, as stated, fails: for the all-zero matrix and `scenarioScript` the output
holds neither the line `0a` nor the line `#5120`. -/
theorem scenario_constant_not_as_claimed :
    readCtrl ovfZero scenarioScript = .ok scenarioGlobals ∧
    ∃ out, writeVcd "" scenarioGlobals zeroData = .ok out ∧ "0a" ∉ out ∧ "#5120" ∉ out := by
  refine ⟨readCtrl_scenario ovfZero, _, writeVcd_scenario_zero "", ?_, ?_⟩ <;> decide

/-- C7 (amended): end-to-end scenario 1. For the matrix of 8192 zero bytes and the
script `timescale 10 ns`, `module m`, `wire a 0`, `readCtrl` followed by `writeVcd`
declares exactly one 1-bit signal named `a` with code `!`, writes the initial value
line `0!` in the `$dumpvars` section under `#0`, and the change dump is the single
closing marker `#512` (`timeNumber = 10`, `timeFactor = 1`). -/
theorem scenario_constant (ovf : String → Int) (date : String) :
    readCtrl ovf scenarioScript = .ok scenarioGlobals ∧
    writeVcd date scenarioGlobals zeroData =
      .ok ["$date", "\t" ++ date, "$end",
           "$version", "\tdata2vcd converter", "$end",
           "$timescale", "\t10 ns", "$end",
           "$scope module m $end",
           "$var wire 1 ! a $end",
           "$upscope $end", "$enddefinitions $end",
           "#0", "$dumpvars", "0!", "$end",
           "#512"] ∧
    writeVarChanges scenarioGlobals zeroData = .ok ["#512"] :=
  ⟨readCtrl_scenario ovf, writeVcd_scenario_zero date, writeVarChanges_scenario_zero⟩

/-- C8, as stated, fails: for the matrix with `data[1][15] = 0x01` the change dump
is not `#1`, `1a`, `#512`; it has no line `1a`, and it has the further lines `#2`
and `0!`. -/
theorem scenario_pulse_not_as_claimed :
    writeVarChanges scenarioGlobals pulseData ≠ .ok ["#1", "1a", "#512"] ∧
    ∃ out, writeVarChanges scenarioGlobals pulseData = .ok out ∧
      "1a" ∉ out ∧ "#2" ∈ out ∧ "0!" ∈ out := by
  refine ⟨?_, _, writeVarChanges_scenario_pulse, by decide, by decide, by decide⟩
  rw [writeVarChanges_scenario_pulse]
  intro h
  exact absurd (Except.ok.inj h) (by decide)

/-- C8 (amended): end-to-end scenario 2. For the matrix that is zero except
`data[1][15] = 0x01` and the script `timescale 10 ns`, `module m`, `wire a 0`, the
change dump written by `writeVarChanges` is exactly `#1`, `1!`, `#2`, `0!`, `#512`:
the marker of step 1 and the value line of the signal with code `!`, the marker of
step 2 and the value line for the bit going back to 0, then the closing marker. -/
theorem scenario_pulse (ovf : String → Int) :
    readCtrl ovf scenarioScript = .ok scenarioGlobals ∧
    writeVarChanges scenarioGlobals pulseData = .ok ["#1", "1!", "#2", "0!", "#512"] :=
  ⟨readCtrl_scenario ovf, writeVarChanges_scenario_pulse⟩

/-! ## Declarations, initial dump and value lines -/

theorem writeVarInits_eq (data : RawData) (sigs : List Signal) (hs : ∀ s ∈ sigs, s.inRange) :
    writeVarInits data sigs = .ok (sigs.map (specValueLine data 0)) := by
  induction sigs with
  | nil => rfl
  | cons s rest ih =>
    have hrest : ∀ x ∈ rest, x.inRange := fun x hx => hs x (List.mem_cons_of_mem _ hx)
    rw [writeVarInits, writeVarChange_eq data s 0 (hs s (List.mem_cons_self _ _)) (le_refl _)
      (by decide), ih hrest]
    rfl

theorem bitAt_le_one (data : RawData) (b t : Int) : bitAt data b t ≤ 1 := by
  unfold bitAt specBit
  split_ifs <;> omega

theorem bitChar_of_le_one (b : Nat) (h : b ≤ 1) : bitChar b = if b = 1 then '1' else '0' := by
  have h01 : b = 0 ∨ b = 1 := by omega
  rcases h01 with rfl | rfl <;> rfl

/-- C13: initial dump. For every configuration (signals with
`0 <= lo <= hi <= 127`) of `k` signals and every sample matrix, `writeVarInits`
writes exactly `k` value lines, the `i`-th being `writeVarChange`'s rendering of
the `i`-th signal at time 0, and in the output of `writeVcd` these lines are the
whole section between `#0`, `$dumpvars` and the following `$end`. -/
theorem initial_dump (date : String) (g : Globals) (data : RawData) (hs : AllInRange g) :
    writeVarInits data g.signals = .ok (g.signals.map (specValueLine data 0)) ∧
    (g.signals.map (specValueLine data 0)).length = g.signals.length ∧
    (∀ (i : Nat) (s : Signal), g.signals[i]? = some s →
      ∃ line, writeVarChange data s 0 = .ok line ∧
        (g.signals.map (specValueLine data 0))[i]? = some line) ∧
    ∃ changes, writeVarChanges g data = .ok changes ∧
      writeVcd date g data =
        .ok (["$date", "\t" ++ date, "$end",
              "$version", "\tdata2vcd converter", "$end",
              "$timescale", "\t" ++ toString g.timeNumber ++ " " ++ g.timeUnit, "$end",
              "$scope module " ++ g.module.getD "(null)" ++ " $end"] ++
             writeVarDefs g ++
             ["$upscope $end", "$enddefinitions $end", "#0", "$dumpvars"] ++
             g.signals.map (specValueLine data 0) ++ ["$end"] ++ changes) := by
  have hinit := writeVarInits_eq data g.signals hs
  refine ⟨hinit, List.length_map _ _, ?_, ?_⟩
  · intro i s hi
    have hmem : s ∈ g.signals := (List.getElem?_eq_some_iff.mp hi).2 ▸ List.getElem_mem _
    refine ⟨_, writeVarChange_eq data s 0 (hs s hmem) (le_refl _) (by decide), ?_⟩
    rw [List.getElem?_map, hi]
    rfl
  · refine ⟨_, writeVarChanges_eq g data hs, ?_⟩
    unfold writeVcd
    rw [hinit, writeVarChanges_eq g data hs]

/-- Instance of C13: the initial dump of `scenarioGlobals` on `pulseData`. -/
theorem initial_dump_witness :
    AllInRange scenarioGlobals ∧
    writeVarInits pulseData scenarioGlobals.signals = .ok ["0!"] :=
  ⟨inRange_scalar0 "a" "!",
    (initial_dump "" scenarioGlobals pulseData (inRange_scalar0 "a" "!")).1⟩

/-- C14: value line format of `writeVarChange`. For a signal with
`0 <= lo <= hi <= 127` and code `c`, and a time `t` in `[0, 511]`: if `hi = lo` the
line is the character `0` or `1` that equals `getDataBitAtTime(hi, t)`, followed at
once by `c`; if `hi > lo` the line is `b`, then exactly `hi - lo + 1` characters
from `0`, `1`, the `j`-th being `getDataBitAtTime(hi - j, t)`, then one space, then
`c`. Each list element stands for the line with its newline. -/
theorem value_line_format (data : RawData) (s : Signal) (t : Int)
    (hs : s.inRange) (ht0 : 0 ≤ t) (ht : t ≤ 511) :
    (s.hiIndex = s.loIndex →
      ∃ bit : Nat, getDataBitAtTime data s.hiIndex t = .ok bit ∧ bit ≤ 1 ∧
        writeVarChange data s t =
          .ok (String.mk [if bit = 1 then '1' else '0'] ++ s.code)) ∧
    (s.loIndex < s.hiIndex →
      ∃ bits : List Nat, (bits.length : Int) = s.hiIndex - s.loIndex + 1 ∧
        (∀ (j : Nat) (h : j < bits.length),
          getDataBitAtTime data (s.hiIndex - (j : Int)) t = .ok bits[j] ∧ bits[j] ≤ 1) ∧
        writeVarChange data s t =
          .ok ("b" ++ String.mk (bits.map fun b => if b = 1 then '1' else '0') ++ " " ++
            s.code)) := by
  obtain ⟨h0, h1, h2⟩ := hs
  have hline := writeVarChange_eq data s t ⟨h0, h1, h2⟩ ht0 ht
  constructor
  · intro heq
    refine ⟨bitAt data s.hiIndex t,
      getDataBitAtTime_inRange data _ _ (by omega) h2 ht0 ht, bitAt_le_one _ _ _, ?_⟩
    rw [hline, specValueLine, if_pos heq, bitChar_of_le_one _ (bitAt_le_one _ _ _)]
  · intro hlt
    refine ⟨(List.range (s.hiIndex - s.loIndex + 1).toNat).map
      (fun (j : Nat) => bitAt data (s.hiIndex - (j : Int)) t), ?_, ?_, ?_⟩
    · rw [List.length_map, List.length_range]
      omega
    · intro j hj
      rw [List.length_map, List.length_range] at hj
      rw [List.getElem_map, List.getElem_range]
      exact ⟨getDataBitAtTime_inRange data _ _ (by omega) (by omega) ht0 ht,
        bitAt_le_one _ _ _⟩
    · rw [hline, specValueLine, if_neg (by omega), List.map_map]
      congr 5
      apply List.map_congr_left
      intro j _
      exact bitChar_of_le_one _ (bitAt_le_one _ _ _)

/-- Instance of C14: the four-bit signal `busSignal` at time step 1 of `pulseData`. -/
theorem value_line_format_witness :
    busSignal.inRange ∧ (0 : Int) ≤ 1 ∧ (1 : Int) ≤ 511 ∧ busSignal.loIndex < busSignal.hiIndex ∧
    ∃ bits : List Nat, (bits.length : Int) = busSignal.hiIndex - busSignal.loIndex + 1 ∧
      (∀ (j : Nat) (h : j < bits.length),
        getDataBitAtTime pulseData (busSignal.hiIndex - (j : Int)) 1 = .ok bits[j] ∧
          bits[j] ≤ 1) ∧
      writeVarChange pulseData busSignal 1 =
        .ok ("b" ++ String.mk (bits.map fun b => if b = 1 then '1' else '0') ++ " " ++
          busSignal.code) :=
  ⟨⟨by decide, by decide, by decide⟩, by decide, by decide, by decide,
    (value_line_format pulseData busSignal 1 ⟨by decide, by decide, by decide⟩
      (by decide) (by decide)).2 (by decide)⟩

theorem varLine_eq (s : Signal) :
    ("$var wire " ++ toString (s.hiIndex - s.loIndex + 1) ++ " " ++ s.code ++ " " ++ s.name ++
        " " ++
        (if s.hiIndex - s.loIndex + 1 > 1 then
          "[" ++ toString (s.hiIndex - s.loIndex + 1 - 1) ++ ":" ++ toString (0 : Int) ++ "] "
         else "") ++ "$end") =
    ("$var wire " ++ toString (s.hiIndex - s.loIndex + 1) ++ " " ++ s.code ++ " " ++ s.name ++
        " " ++
        (if s.hiIndex - s.loIndex + 1 > 1 then
          "[" ++ toString (s.hiIndex - s.loIndex + 1 - 1) ++ ":0] "
         else "") ++ "$end") := by
  have h0 : toString (0 : Int) = "0" := by decide
  have h1 : (":" : String) ++ "0" = ":0" := by decide
  have h2 : (":0" : String) ++ "] " = ":0] " := by decide
  have h : "[" ++ toString (s.hiIndex - s.loIndex + 1 - 1) ++ ":" ++ toString (0 : Int) ++ "] " =
      "[" ++ toString (s.hiIndex - s.loIndex + 1 - 1) ++ ":0] " := by
    rw [h0, String.append_assoc _ ":" "0", h1, String.append_assoc _ ":0" "] ", h2]
  rw [h]

/-- C15: variable declarations of `writeVarDefs`. For a signal table of `k` entries
exactly `k` lines are written, in table order; the `i`-th line is
`$var wire <w> <code> <name> `, followed by `[<w-1>:0] ` if and only if `w > 1`,
followed by `$end`, where `w = hiIndex - loIndex + 1` and `<code>`, `<name>` are the
code and name of the `i`-th signal. -/
theorem var_declarations (g : Globals) :
    (writeVarDefs g).length = g.signals.length ∧
    ∀ (i : Nat) (s : Signal), g.signals[i]? = some s →
      (writeVarDefs g)[i]? =
        some ("$var wire " ++ toString (s.hiIndex - s.loIndex + 1) ++ " " ++ s.code ++ " " ++
          s.name ++ " " ++
          (if s.hiIndex - s.loIndex + 1 > 1 then
            "[" ++ toString (s.hiIndex - s.loIndex + 1 - 1) ++ ":0] "
           else "") ++ "$end") := by
  constructor
  · simp [writeVarDefs]
  · intro i s hi
    unfold writeVarDefs
    rw [List.getElem?_map, hi]
    simp only [Option.map_some']
    rw [varLine_eq s]

/-- Instance of C15: the declaration of the one signal of `scenarioGlobals`. -/
theorem var_declarations_witness :
    scenarioGlobals.signals[0]? = some { name := "a", hiIndex := 0, loIndex := 0, code := "!" } ∧
    (writeVarDefs scenarioGlobals)[0]? = some "$var wire 1 ! a $end" :=
  ⟨rfl, (var_declarations scenarioGlobals).2 0 _ rfl⟩

/-! ## Safety of the encoder -/

theorem getDataBitAtTime_error_iff (data : RawData) (b t : Int) :
    (∃ e, getDataBitAtTime data b t = .error e) ↔ (b < 0 ∨ 127 < b ∨ t < 0 ∨ 511 < t) := by
  constructor
  · rintro ⟨e, he⟩
    by_contra hin
    rw [getDataBitAtTime_inRange data b t (by omega) (by omega) (by omega) (by omega)] at he
    cases he
  · intro h
    unfold getDataBitAtTime
    by_cases hb : b < 0 ∨ b ≥ 128
    · exact ⟨_, if_pos hb⟩
    · have ht : t < 0 ∨ t ≥ 512 := by omega
      rw [if_neg hb, if_pos ht]
      exact ⟨_, rfl⟩

theorem getDataBitAtTime_congr (data data1 : RawData)
    (h : ∀ t k : Nat, t ≤ 511 → k ≤ 15 → data t k = data1 t k) (b t : Int) :
    getDataBitAtTime data b t = getDataBitAtTime data1 b t := by
  unfold getDataBitAtTime
  by_cases hb : b < 0 ∨ b ≥ 128
  · rw [if_pos hb, if_pos hb]
  · by_cases ht : t < 0 ∨ t ≥ 512
    · rw [if_neg hb, if_pos ht, if_neg hb, if_pos ht]
    · rw [if_neg hb, if_neg ht, if_neg hb, if_neg ht]
      have hd : Int.tdiv b 8 = b / 8 := Int.tdiv_eq_ediv (by omega) (by decide)
      simp only [hd]
      rw [h t.toNat (15 - b / 8).toNat (by omega) (by omega)]

theorem vectorBits_congr (data data1 : RawData)
    (h : ∀ b t : Int, getDataBitAtTime data b t = getDataBitAtTime data1 b t)
    (lo t : Int) (n : Nat) : vectorBits data lo t n = vectorBits data1 lo t n := by
  induction n with
  | zero => rfl
  | succ k ih => simp only [vectorBits, h, ih]

theorem writeVarChange_congr (data data1 : RawData)
    (h : ∀ b t : Int, getDataBitAtTime data b t = getDataBitAtTime data1 b t)
    (s : Signal) (t : Int) : writeVarChange data s t = writeVarChange data1 s t := by
  simp only [writeVarChange, h, vectorBits_congr data data1 h]

theorem writeVarInits_congr (data data1 : RawData)
    (h : ∀ b t : Int, getDataBitAtTime data b t = getDataBitAtTime data1 b t)
    (sigs : List Signal) : writeVarInits data sigs = writeVarInits data1 sigs := by
  induction sigs with
  | nil => rfl
  | cons s rest ih => simp only [writeVarInits, writeVarChange_congr data data1 h, ih]

theorem changeScan_congr (data data1 : RawData)
    (h : ∀ b t : Int, getDataBitAtTime data b t = getDataBitAtTime data1 b t)
    (lo t : Int) (n : Nat) : changeScan data lo t n = changeScan data1 lo t n := by
  induction n with
  | zero => rfl
  | succ k ih => simp only [changeScan, h, ih]

theorem signalLoop_congr (g : Globals) (data data1 : RawData)
    (h : ∀ b t : Int, getDataBitAtTime data b t = getDataBitAtTime data1 b t)
    (t : Int) (sigs : List Signal) (flag : Bool) :
    signalLoop g data t sigs flag = signalLoop g data1 t sigs flag := by
  induction sigs generalizing flag with
  | nil => rfl
  | cons s rest ih =>
    simp only [signalLoop, signalStep, changeScan_congr data data1 h,
      writeVarChange_congr data data1 h, ih]

theorem timeLoop_congr (g : Globals) (data data1 : RawData)
    (h : ∀ b t : Int, getDataBitAtTime data b t = getDataBitAtTime data1 b t)
    (n : Nat) (t : Int) : timeLoop g data n t = timeLoop g data1 n t := by
  induction n generalizing t with
  | zero => rfl
  | succ k ih => simp only [timeLoop, signalLoop_congr g data data1 h, ih]

theorem writeVcd_congr (date : String) (g : Globals) (data data1 : RawData)
    (h : ∀ t k : Nat, t ≤ 511 → k ≤ 15 → data t k = data1 t k) :
    writeVcd date g data = writeVcd date g data1 := by
  have hb := getDataBitAtTime_congr data data1 h
  simp only [writeVcd, writeVarChanges, writeVarInits_congr data data1 hb,
    timeLoop_congr g data data1 hb]

theorem writeVcd_eq (date : String) (g : Globals) (data : RawData) (hs : AllInRange g) :
    writeVcd date g data =
      .ok (["$date", "\t" ++ date, "$end",
            "$version", "\tdata2vcd converter", "$end",
            "$timescale", "\t" ++ toString g.timeNumber ++ " " ++ g.timeUnit, "$end",
            "$scope module " ++ g.module.getD "(null)" ++ " $end"] ++
           writeVarDefs g ++
           ["$upscope $end", "$enddefinitions $end", "#0", "$dumpvars"] ++
           g.signals.map (specValueLine data 0) ++ ["$end"] ++
           (specBody g data ++ [timeLine g 512])) := by
  unfold writeVcd
  rw [writeVarInits_eq data g.signals hs, writeVarChanges_eq g data hs]

/-- C19: the encoder keeps to the contract of the bit accessor. Every signal of a
successful `readCtrl` has `0 <= loIndex <= hiIndex <= 127`. For every such
configuration and every sample matrix `writeVarInits`, `writeVarChange` (at times
`0 .. 511`), `writeVarChanges` and `writeVcd` end without an error, and they pass
every error of `getDataBitAtTime` on, so no call reaches an error branch.
`getDataBitAtTime` fails exactly when `bitno` is outside `[0, 127]` or `time` is
outside `[0, 511]`; for `bitno` in range the byte index is in `[0, 15]`; and the
output depends on `data` only inside `[0, 511] x [0, 15]`. -/
theorem accessor_contract :
    (∀ (ovf : String → Int) (script : String) (g : Globals),
      readCtrl ovf script = .ok g →
        ∀ s ∈ g.signals, 0 ≤ s.loIndex ∧ s.loIndex ≤ s.hiIndex ∧ s.hiIndex ≤ 127) ∧
    (∀ (date : String) (g : Globals) (data : RawData), AllInRange g →
      (∃ lines, writeVarInits data g.signals = .ok lines) ∧
      (∀ s ∈ g.signals, ∀ t : Int, 0 ≤ t → t ≤ 511 →
        ∃ line, writeVarChange data s t = .ok line) ∧
      (∃ lines, writeVarChanges g data = .ok lines) ∧
      (∃ lines, writeVcd date g data = .ok lines)) ∧
    (∀ (data : RawData) (b t : Int),
      (∃ e, getDataBitAtTime data b t = .error e) ↔ (b < 0 ∨ 127 < b ∨ t < 0 ∨ 511 < t)) ∧
    (∀ b : Int, 0 ≤ b → b ≤ 127 → 0 ≤ 15 - Int.tdiv b 8 ∧ 15 - Int.tdiv b 8 ≤ 15) ∧
    (∀ (date : String) (g : Globals) (data data1 : RawData),
      (∀ t k : Nat, t ≤ 511 → k ≤ 15 → data t k = data1 t k) →
        writeVcd date g data = writeVcd date g data1) := by
  refine ⟨?_, ?_, getDataBitAtTime_error_iff, ?_, writeVcd_congr⟩
  · intro ovf script g hg
    exact (readCtrl_inv ovf script g hg).2
  · intro date g data hs
    refine ⟨⟨_, writeVarInits_eq data g.signals hs⟩, ?_, ⟨_, writeVarChanges_eq g data hs⟩, ?_⟩
    · intro s hmem t ht0 ht
      exact ⟨_, writeVarChange_eq data s t (hs s hmem) ht0 ht⟩
    · exact ⟨_, writeVcd_eq date g data hs⟩
  · intro b hb0 hb
    have hd : Int.tdiv b 8 = b / 8 := Int.tdiv_eq_ediv hb0 (by decide)
    rw [hd]
    omega

/-- Instance of C19: `scenarioScript` and the sample matrix `pulseData`. -/
theorem accessor_contract_witness :
    readCtrl ovfZero scenarioScript = .ok scenarioGlobals ∧
    (∀ s ∈ scenarioGlobals.signals, 0 ≤ s.loIndex ∧ s.loIndex ≤ s.hiIndex ∧ s.hiIndex ≤ 127) ∧
    AllInRange scenarioGlobals ∧
    (∃ lines, writeVcd "" scenarioGlobals pulseData = .ok lines) :=
  ⟨readCtrl_scenario ovfZero,
    accessor_contract.1 ovfZero scenarioScript scenarioGlobals (readCtrl_scenario ovfZero),
    inRange_scalar0 "a" "!",
    (accessor_contract.2.1 "" scenarioGlobals pulseData (inRange_scalar0 "a" "!")).2.2.2⟩

/-! ## Steps without a change -/

theorem rangeDiffers_false (data : RawData) (lo t : Int) (n : Nat)
    (h : rangeDiffers data lo t n = false) (k : Nat) (hk : k < n) :
    bitAt data (lo + k) (t - 1) = bitAt data (lo + k) t := by
  by_contra hne
  have := (rangeDiffers_iff data lo t n).mpr ⟨k, hk, hne⟩
  rw [h] at this
  cases this

theorem specValueLine_unchanged (data : RawData) (s : Signal) (t : Int) (hs : s.inRange)
    (h : changedAt data t s = false) :
    specValueLine data t s = specValueLine data (t - 1) s := by
  obtain ⟨h0, h1, h2⟩ := hs
  have hbit : ∀ b : Int, s.loIndex ≤ b → b ≤ s.hiIndex → bitAt data b t = bitAt data b (t - 1) := by
    intro b hb0 hb1
    have := rangeDiffers_false data s.loIndex t _ h (b - s.loIndex).toNat (by omega)
    have hb : s.loIndex + ((b - s.loIndex).toNat : Int) = b := by omega
    rw [hb] at this
    exact this.symm
  unfold specValueLine
  by_cases heq : s.hiIndex = s.loIndex
  · rw [if_pos heq, if_pos heq, hbit _ (by omega) (le_refl _)]
  · rw [if_neg heq, if_neg heq]
    have hmap : (List.range (s.hiIndex - s.loIndex + 1).toNat).map
          (fun (j : Nat) => bitChar (bitAt data (s.hiIndex - (j : Int)) t)) =
        (List.range (s.hiIndex - s.loIndex + 1).toNat).map
          (fun (j : Nat) => bitChar (bitAt data (s.hiIndex - (j : Int)) (t - 1))) := by
      apply List.map_congr_left
      intro j hj
      have hj1 := List.mem_range.mp hj
      rw [hbit _ (by omega) (by omega)]
    rw [hmap]

/-! ## Timeline -/

theorem head_append (a b : String) (c : Char) (h : a.data.head? = some c) :
    (a ++ b).data.head? = some c := by
  rw [String.data_append, List.head?_append, h]
  rfl

theorem isMarker_append (a b : String) (c : Char) (h : a.data.head? = some c) :
    isMarker (a ++ b) = (c == '#') := by
  unfold isMarker
  rw [head_append a b c h]
  by_cases hc : c = '#'
  · subst hc; rfl
  · simp [hc]

theorem isMarker_timeLine (g : Globals) (t : Int) : isMarker (timeLine g t) = true := by
  unfold timeLine
  rw [isMarker_append "#" _ '#' rfl]
  rfl

theorem isMarker_valueLine (data : RawData) (t : Int) (s : Signal) :
    isMarker (specValueLine data t s) = false := by
  unfold specValueLine
  split_ifs
  · rw [isMarker_append (String.mk [bitChar (bitAt data s.hiIndex t)]) s.code _ rfl,
      bitChar_of_le_one _ (bitAt_le_one _ _ _)]
    split_ifs <;> rfl
  · rw [isMarker_append _ _ 'b' (head_append _ _ 'b' (head_append "b" _ 'b' rfl))]
    rfl

theorem filter_marker_defs (g : Globals) : (writeVarDefs g).filter isMarker = [] := by
  apply List.filter_eq_nil_iff.mpr
  intro l hl
  unfold writeVarDefs at hl
  obtain ⟨s, -, rfl⟩ := List.mem_map.mp hl
  have h1 : isMarker ("$var wire " ++ toString (s.hiIndex - s.loIndex + 1) ++ " " ++ s.code ++
      " " ++ s.name ++ " " ++
      (if s.hiIndex - s.loIndex + 1 > 1 then
        "[" ++ toString (s.hiIndex - s.loIndex + 1 - 1) ++ ":" ++ toString (0 : Int) ++ "] "
       else "") ++ "$end") = false := by
    rw [isMarker_append _ _ '$']
    · rfl
    · repeat apply head_append
      rfl
  simp only [h1]
  decide

theorem filter_marker_step (g : Globals) (data : RawData) (t : Nat) :
    (specStep g data (t : Int)).filter isMarker =
      if anyChanged g data t then [timeLine g (t : Int)] else [] := by
  unfold specStep anyChanged
  cases h : (g.signals.filter (changedAt data (t : Int))).isEmpty
  · simp only [Bool.false_eq_true, if_false, Bool.not_false, if_true, List.filter_cons,
      isMarker_timeLine]
    congr 1
    apply List.filter_eq_nil_iff.mpr
    intro l hl
    obtain ⟨s, -, rfl⟩ := List.mem_map.mp hl
    simp [isMarker_valueLine]
  · simp

theorem filter_marker_steps (g : Globals) (data : RawData) (l : List Nat) :
    (l.flatMap fun (t : Nat) => specStep g data (t : Int)).filter isMarker =
      (l.filter (anyChanged g data)).map fun (t : Nat) => timeLine g (t : Int) := by
  induction l with
  | nil => rfl
  | cons t rest ih =>
    rw [List.flatMap_cons, List.filter_append, ih, filter_marker_step, List.filter_cons]
    cases anyChanged g data t <;> simp

theorem filter_marker_inits (data : RawData) (sigs : List Signal) :
    (sigs.map (specValueLine data 0)).filter isMarker = [] := by
  apply List.filter_eq_nil_iff.mpr
  intro l hl
  obtain ⟨s, -, rfl⟩ := List.mem_map.mp hl
  simp [isMarker_valueLine]

theorem filter_marker_vcd (date : String) (g : Globals) (data : RawData) :
    (["$date", "\t" ++ date, "$end",
      "$version", "\tdata2vcd converter", "$end",
      "$timescale", "\t" ++ toString g.timeNumber ++ " " ++ g.timeUnit, "$end",
      "$scope module " ++ g.module.getD "(null)" ++ " $end"] ++
      writeVarDefs g ++
      ["$upscope $end", "$enddefinitions $end", "#0", "$dumpvars"] ++
      g.signals.map (specValueLine data 0) ++ ["$end"] ++
      (specBody g data ++ [timeLine g 512])).filter isMarker =
    "#0" :: (((List.range' 1 511).filter (anyChanged g data)).map
        fun (t : Nat) => timeLine g (t : Int)) ++ [timeLine g 512] := by
  have hd : isMarker ("\t" ++ date) = false := by
    rw [isMarker_append "\t" date '\t' rfl]; rfl
  have hts : isMarker ("\t" ++ toString g.timeNumber ++ " " ++ g.timeUnit) = false := by
    rw [isMarker_append _ _ '\t' (head_append _ _ '\t' (head_append "\t" _ '\t' rfl))]; rfl
  have hsc : isMarker ("$scope module " ++ g.module.getD "(null)" ++ " $end") = false := by
    rw [isMarker_append _ _ '$' (head_append "$scope module " _ '$' rfl)]; rfl
  have hhead : (["$date", "\t" ++ date, "$end",
      "$version", "\tdata2vcd converter", "$end",
      "$timescale", "\t" ++ toString g.timeNumber ++ " " ++ g.timeUnit, "$end",
      "$scope module " ++ g.module.getD "(null)" ++ " $end"] : List String).filter isMarker
      = [] := by
    apply List.filter_eq_nil_iff.mpr
    intro l hl
    simp only [List.mem_cons, List.mem_singleton, List.not_mem_nil, or_false] at hl
    rcases hl with rfl | rfl | rfl | rfl | rfl | rfl | rfl | rfl | rfl | rfl
    all_goals first
      | (simp only [hd, hts, hsc]; decide)
      | decide
  have hmid : (["$upscope $end", "$enddefinitions $end", "#0", "$dumpvars"] :
      List String).filter isMarker = ["#0"] := by decide
  have hend : (["$end"] : List String).filter isMarker = [] := by decide
  have hbody : (specBody g data).filter isMarker =
      ((List.range' 1 511).filter (anyChanged g data)).map
        fun (t : Nat) => timeLine g (t : Int) := filter_marker_steps g data _
  simp only [List.filter_append, hhead, filter_marker_defs, hmid, filter_marker_inits, hend,
    hbody, List.nil_append, List.append_nil, List.filter_cons, isMarker_timeLine, if_true,
    List.filter_nil, List.singleton_append]
  rfl

theorem timeLine_of_fits (g : Globals) (t : Int) (ht0 : 0 ≤ t) (ht : t ≤ 512)
    (htf : 1 ≤ g.timeFactor) (hfit : 512 * g.timeFactor ≤ 2147483647) :
    timeLine g t = "#" ++ toString (t * g.timeFactor) := by
  unfold timeLine
  rw [wrap32_of_fits _ (by nlinarith) (by nlinarith)]

/-- C20: monotone timeline. For every configuration (signals with
`0 <= lo <= hi <= 127`) with `timeFactor >= 1` and `512 * timeFactor` inside the
`int` range, and every sample matrix, the timestamp marker lines of the output of
`writeVcd`, in the order written, are `#n` for a strictly increasing sequence of
numbers `n` that starts with 0 and ends with `512 * timeFactor`. -/
theorem monotone_timeline (date : String) (g : Globals) (data : RawData)
    (hs : AllInRange g) (htf : 1 ≤ g.timeFactor) (hfit : 512 * g.timeFactor ≤ 2147483647) :
    ∃ (out : List String) (ts : List Int),
      writeVcd date g data = .ok out ∧
      out.filter isMarker = ts.map (fun n => "#" ++ toString n) ∧
      ts.Pairwise (fun a b => a < b) ∧
      ts.head? = some 0 ∧ ts.getLast? = some (512 * g.timeFactor) := by
  refine ⟨_, 0 :: (((List.range' 1 511).filter (anyChanged g data)).map
      fun (t : Nat) => (t : Int) * g.timeFactor) ++ [512 * g.timeFactor],
    writeVcd_eq date g data hs, ?_, ?_, rfl, ?_⟩
  · rw [filter_marker_vcd, timeLine_of_fits g 512 (by decide) (by decide) htf hfit]
    have h0 : ("#0" : String) = "#" ++ toString (0 : Int) := by decide
    simp only [List.map_cons, List.map_append, List.map_map, List.map_nil, List.cons_append]
    rw [← h0]
    congr 2
    apply List.map_congr_left
    intro t ht
    have hmem := List.mem_range'_1.mp (List.mem_of_mem_filter ht)
    exact timeLine_of_fits g t (by omega) (by omega) htf hfit
  · have hsorted : ((List.range' 1 511).filter (anyChanged g data)).Pairwise
        (fun a b => a < b) := (List.pairwise_lt_range' 1 511).filter _
    have hmap : (((List.range' 1 511).filter (anyChanged g data)).map
        fun (t : Nat) => (t : Int) * g.timeFactor).Pairwise (fun a b => a < b) := by
      apply List.Pairwise.map _ _ hsorted
      intro a b hab
      have : (a : Int) < b := by exact_mod_cast hab
      nlinarith
    rw [List.cons_append, List.pairwise_cons, List.pairwise_append]
    refine ⟨?_, hmap, List.pairwise_singleton _ _, ?_⟩
    · intro x hx
      rcases List.mem_append.mp hx with hx | hx
      · obtain ⟨t, ht, rfl⟩ := List.mem_map.mp hx
        have hmem := List.mem_range'_1.mp (List.mem_of_mem_filter ht)
        have : (1 : Int) ≤ t := by exact_mod_cast hmem.1
        nlinarith
      · rw [List.mem_singleton.mp hx]
        omega
    · intro x hx y hy
      obtain ⟨t, ht, rfl⟩ := List.mem_map.mp hx
      rw [List.mem_singleton.mp hy]
      have hmem := List.mem_range'_1.mp (List.mem_of_mem_filter ht)
      have : (t : Int) ≤ 511 := by omega
      nlinarith
  · rw [List.cons_append, ← List.cons_append, List.getLast?_concat]

/-- Instance of C20: `scenarioGlobals` on `pulseData`. -/
theorem monotone_timeline_witness :
    AllInRange scenarioGlobals ∧ 1 ≤ scenarioGlobals.timeFactor ∧
    512 * scenarioGlobals.timeFactor ≤ 2147483647 ∧
    ∃ (out : List String) (ts : List Int),
      writeVcd "" scenarioGlobals pulseData = .ok out ∧
      out.filter isMarker = ts.map (fun n => "#" ++ toString n) ∧
      ts.Pairwise (fun a b => a < b) ∧
      ts.head? = some 0 ∧ ts.getLast? = some (512 * scenarioGlobals.timeFactor) :=
  ⟨inRange_scalar0 "a" "!", by decide, by decide,
    monotone_timeline "" scenarioGlobals pulseData (inRange_scalar0 "a" "!")
      (by decide) (by decide)⟩

/-! ## Completeness, names and table size -/

theorem moduleDirective_inv (g g1 : Globals) (lineno : Nat) (toks : List String)
    (h : moduleDirective g lineno toks = .ok g1) :
    g1 = { g with module := some (toks.getD 1 "") } := by
  unfold moduleDirective at h
  split at h
  · split_ifs at h
    cases h
    rfl
  · cases h

theorem timescaleDirective_inv (ovf : String → Int) (g g1 : Globals) (lineno : Nat)
    (toks : List String) (h : timescaleDirective ovf g lineno toks = .ok g1) :
    g1 = timescaleSet ovf g toks := by
  obtain ⟨hyes, hno⟩ := timescaleDirective_spec ovf g lineno toks
  by_cases hs : specTimescaleLine toks
  · rw [hyes hs] at h
    exact (Except.ok.inj h).symm
  · obtain ⟨e1, he1⟩ := hno hs
    rw [he1] at h
    cases h

theorem ctrlLine_cases (ovf : String → Int) (g g1 : Globals) (lineno : Nat) (line : List Char)
    (h : ctrlLine ovf g lineno line = .ok g1) :
    ((tokenize line).head? = some "timescale" ∧ g1 = timescaleSet ovf g (tokenize line)) ∨
    ((tokenize line).head? = some "module" ∧
      g1 = { g with module := some ((tokenize line).getD 1 "") }) ∨
    ((tokenize line).head? = some "wire" ∧
      ∃ code, g1 = wireAppend ovf g (tokenize line) code) ∨
    ((tokenize line).head? ≠ some "timescale" ∧ (tokenize line).head? ≠ some "module" ∧
      (tokenize line).head? ≠ some "wire" ∧ g1 = g) := by
  unfold ctrlLine at h
  split_ifs at h
  unfold directive at h
  split at h
  · next heq =>
    cases h
    rw [heq]
    exact Or.inr (Or.inr (Or.inr ⟨by simp, by simp, by simp, rfl⟩))
  · next t0 rest heq =>
    rw [heq]
    split_ifs at h with hc hts hm hw
    · cases h
      have h1 : t0 ≠ "timescale" := by rintro rfl; exact absurd hc (by decide)
      have h2 : t0 ≠ "module" := by rintro rfl; exact absurd hc (by decide)
      have h3 : t0 ≠ "wire" := by rintro rfl; exact absurd hc (by decide)
      exact Or.inr (Or.inr (Or.inr ⟨by simpa using h1, by simpa using h2, by simpa using h3, rfl⟩))
    · subst hts
      rw [heq] at h
      exact Or.inl ⟨rfl, timescaleDirective_inv ovf g g1 lineno _ h⟩
    · subst hm
      rw [heq] at h
      exact Or.inr (Or.inl ⟨rfl, moduleDirective_inv g g1 lineno _ h⟩)
    · subst hw
      rw [heq] at h
      obtain ⟨code, -, -, hg⟩ := wireDirective_inv ovf g g1 lineno _ h
      exact Or.inr (Or.inr (Or.inl ⟨rfl, code, hg⟩))

theorem splitTimescale_fst_ne_zero (n : Int) : (splitTimescale n).1 ≠ 0 := by
  unfold splitTimescale
  split_ifs <;> simp

theorem hasDirective_cons (kw : String) (l : List Char) (ls : List (List Char)) :
    hasDirective kw (l :: ls) ↔ (tokenize l).head? = some kw ∨ hasDirective kw ls := by
  simp [hasDirective]

theorem wireNames_cons (l : List Char) (ls : List (List Char)) :
    wireNames (l :: ls) =
      (if (tokenize l).head? = some "wire" then [(tokenize l).getD 1 ""] else []) ++
        wireNames ls := by
  unfold wireNames
  by_cases h : (tokenize l).head? = some "wire"
  · simp [List.filter_cons, h]
  · simp [List.filter_cons, h]

theorem ctrlLines_summary (ovf : String → Int) (lines : List (List Char)) (lineno : Nat)
    (g g1 : Globals) (h : ctrlLines ovf lines lineno g = .ok g1) :
    (g1.timeNumber ≠ 0 ↔ g.timeNumber ≠ 0 ∨ hasDirective "timescale" lines) ∧
    (g1.module ≠ none ↔ g.module ≠ none ∨ hasDirective "module" lines) ∧
    g1.signals.map Signal.name = g.signals.map Signal.name ++ wireNames lines := by
  induction lines generalizing lineno g with
  | nil =>
    cases h
    simp [hasDirective, wireNames]
  | cons l ls ih =>
    unfold ctrlLines at h
    cases hl : ctrlLine ovf g lineno l with
    | error e => rw [hl] at h; cases h
    | ok g2 =>
      rw [hl] at h
      obtain ⟨i1, i2, i3⟩ := ih (lineno + 1) g2 h
      rw [i1, i2, i3, hasDirective_cons, hasDirective_cons, wireNames_cons]
      have d1 : (some "timescale" : Option String) ≠ some "module" := by decide
      have d2 : (some "timescale" : Option String) ≠ some "wire" := by decide
      have d3 : (some "module" : Option String) ≠ some "wire" := by decide
      rcases ctrlLine_cases ovf g g2 lineno l hl with
        ⟨hk, rfl⟩ | ⟨hk, rfl⟩ | ⟨hk, code, rfl⟩ | ⟨n1, n2, n3, rfl⟩
      · simp [timescaleSet, hk, splitTimescale_fst_ne_zero]
      · simp [hk]
      · simp [wireAppend, hk]
      · simp [n1, n2, n3]

theorem readCtrl_summary (ovf : String → Int) (script : String) (g : Globals)
    (h : ctrlLines ovf (fgetsLines script.data []) 1 Globals.init = .ok g) :
    (g.timeNumber ≠ 0 ↔ hasDirective "timescale" (fgetsLines script.data [])) ∧
    (g.module ≠ none ↔ hasDirective "module" (fgetsLines script.data [])) ∧
    g.signals.map Signal.name = wireNames (fgetsLines script.data []) := by
  obtain ⟨h1, h2, h3⟩ := ctrlLines_summary ovf _ 1 Globals.init g h
  refine ⟨?_, ?_, ?_⟩
  · rw [h1]; simp [Globals.init]
  · rw [h2]; simp [Globals.init]
  · rw [h3]; simp [Globals.init]

theorem wireNames_ne_nil_iff (lines : List (List Char)) :
    wireNames lines ≠ [] ↔ hasDirective "wire" lines := by
  induction lines with
  | nil => simp [wireNames, hasDirective]
  | cons l ls ih =>
    rw [wireNames_cons, hasDirective_cons]
    by_cases h : (tokenize l).head? = some "wire"
    · simp [h]
    · simp [h, ih]

/-- C11: completeness check at the end of `readCtrl`. For a script all of whose
lines are accepted, `readCtrl` succeeds if and only if some line is a `timescale`
directive, some line is a `module` directive and some line is a `wire` directive.
Otherwise it fails with the message of the first missing directive in the order
`timescale`, `module`, `wire`, and the three messages are pairwise distinct. -/
theorem completeness_check (ovf : String → Int) (script : String) (g : Globals)
    (hlines : ctrlLines ovf (fgetsLines script.data []) 1 Globals.init = .ok g) :
    ((∃ g1, readCtrl ovf script = .ok g1) ↔
      hasDirective "timescale" (fgetsLines script.data []) ∧
      hasDirective "module" (fgetsLines script.data []) ∧
      hasDirective "wire" (fgetsLines script.data [])) ∧
    (hasDirective "timescale" (fgetsLines script.data []) →
      hasDirective "module" (fgetsLines script.data []) →
      hasDirective "wire" (fgetsLines script.data []) → readCtrl ovf script = .ok g) ∧
    (¬ hasDirective "timescale" (fgetsLines script.data []) →
      readCtrl ovf script = .error (.error "'timescale' directive missing")) ∧
    (hasDirective "timescale" (fgetsLines script.data []) →
      ¬ hasDirective "module" (fgetsLines script.data []) →
      readCtrl ovf script = .error (.error "'module' directive missing")) ∧
    (hasDirective "timescale" (fgetsLines script.data []) →
      hasDirective "module" (fgetsLines script.data []) →
      ¬ hasDirective "wire" (fgetsLines script.data []) →
      readCtrl ovf script = .error (.error "'wire' directive(s) missing")) ∧
    ("'timescale' directive missing" ≠ "'module' directive missing" ∧
     "'timescale' directive missing" ≠ "'wire' directive(s) missing" ∧
     "'module' directive missing" ≠ "'wire' directive(s) missing") := by
  obtain ⟨h1, h2, h3⟩ := readCtrl_summary ovf script g hlines
  have h4 : g.signals.length ≠ 0 ↔ hasDirective "wire" (fgetsLines script.data []) := by
    rw [← wireNames_ne_nil_iff, ← h3]
    simp
  have hrc : readCtrl ovf script = ctrlComplete g := by
    unfold readCtrl
    rw [hlines]
  have hyes : hasDirective "timescale" (fgetsLines script.data []) →
      hasDirective "module" (fgetsLines script.data []) →
      hasDirective "wire" (fgetsLines script.data []) → readCtrl ovf script = .ok g := by
    intro a b c
    rw [hrc, ctrlComplete, if_neg (h1.mpr a), if_neg (h2.mpr b), if_neg (h4.mpr c)]
  have hno1 : ¬ hasDirective "timescale" (fgetsLines script.data []) →
      readCtrl ovf script = .error (.error "'timescale' directive missing") := by
    intro a
    have : g.timeNumber = 0 := by
      by_contra hne
      exact a (h1.mp hne)
    rw [hrc, ctrlComplete, if_pos this]
  have hno2 : hasDirective "timescale" (fgetsLines script.data []) →
      ¬ hasDirective "module" (fgetsLines script.data []) →
      readCtrl ovf script = .error (.error "'module' directive missing") := by
    intro a b
    have : g.module = none := by
      by_contra hne
      exact b (h2.mp hne)
    rw [hrc, ctrlComplete, if_neg (h1.mpr a), if_pos this]
  have hno3 : hasDirective "timescale" (fgetsLines script.data []) →
      hasDirective "module" (fgetsLines script.data []) →
      ¬ hasDirective "wire" (fgetsLines script.data []) →
      readCtrl ovf script = .error (.error "'wire' directive(s) missing") := by
    intro a b c
    have : g.signals.length = 0 := by
      by_contra hne
      exact c (h4.mp hne)
    rw [hrc, ctrlComplete, if_neg (h1.mpr a), if_neg (h2.mpr b), if_pos this]
  refine ⟨⟨?_, fun ⟨a, b, c⟩ => ⟨g, hyes a b c⟩⟩, hyes, hno1, hno2, hno3,
    by decide, by decide, by decide⟩
  rintro ⟨g1, hg1⟩
  by_contra hmiss
  by_cases a : hasDirective "timescale" (fgetsLines script.data [])
  · by_cases b : hasDirective "module" (fgetsLines script.data [])
    · by_cases c : hasDirective "wire" (fgetsLines script.data [])
      · exact hmiss ⟨a, b, c⟩
      · rw [hno3 a b c] at hg1; cases hg1
    · rw [hno2 a b] at hg1; cases hg1
  · rw [hno1 a] at hg1; cases hg1

theorem readCtrl_lines (ovf : String → Int) (script : String) (g : Globals)
    (h : readCtrl ovf script = .ok g) :
    ctrlLines ovf (fgetsLines script.data []) 1 Globals.init = .ok g := by
  unfold readCtrl at h
  cases hl : ctrlLines ovf (fgetsLines script.data []) 1 Globals.init with
  | error e => rw [hl] at h; cases h
  | ok g2 =>
    rw [hl] at h
    rw [ctrlComplete_eq g2 g h]

/-- Instance of C11: `scenarioScript` has all three directives and is accepted. -/
theorem completeness_check_witness :
    ctrlLines ovfZero (fgetsLines scenarioScript.data []) 1 Globals.init = .ok scenarioGlobals ∧
    ((∃ g1, readCtrl ovfZero scenarioScript = .ok g1) ↔
      hasDirective "timescale" (fgetsLines scenarioScript.data []) ∧
      hasDirective "module" (fgetsLines scenarioScript.data []) ∧
      hasDirective "wire" (fgetsLines scenarioScript.data [])) :=
  ⟨rfl, (completeness_check ovfZero scenarioScript scenarioGlobals rfl).1⟩

theorem codes_distinct (g : Globals) (h : CodesAssigned g) (i j : Nat) (a b : Signal)
    (ha : g.signals[i]? = some a) (hb : g.signals[j]? = some b) (hne : i ≠ j) :
    a.code ≠ b.code := by
  intro hcode
  have hi := h i a ha
  have hj := h j b hb
  rw [hcode] at hi
  exact hne (numberToCode_injective i j (lt_of_numberToCode_ok i _ hi)
    (lt_of_numberToCode_ok j _ hj) (hi.trans hj.symm))

/-- C17, as stated, fails: `dupScript` declares the name `a` twice and `readCtrl`
accepts it; the table holds two signals named `a`. -/
theorem duplicate_names_accepted :
    ∃ g, readCtrl ovfZero dupScript = .ok g ∧ g.signals.map Signal.name = ["a", "a"] ∧
      ¬ (g.signals.map Signal.name).Nodup :=
  ⟨_, rfl, rfl, by decide⟩

/-- C17 (amended): signal names. For every control script on which `readCtrl`
succeeds, the names of the signals in the table are the names of the script's `wire`
directives, one entry for each directive, in script order; so they are pairwise
distinct exactly when the directives' names are. Names are not compared: signals
are told apart by their codes, which are pairwise distinct. -/
theorem signal_names (ovf : String → Int) (script : String) (g : Globals)
    (h : readCtrl ovf script = .ok g) :
    g.signals.map Signal.name = wireNames (fgetsLines script.data []) ∧
    ((g.signals.map Signal.name).Nodup ↔ (wireNames (fgetsLines script.data [])).Nodup) ∧
    (∀ (i j : Nat) (a b : Signal), g.signals[i]? = some a → g.signals[j]? = some b →
      i ≠ j → a.code ≠ b.code) := by
  have hn := (readCtrl_summary ovf script g (readCtrl_lines ovf script g h)).2.2
  exact ⟨hn, by rw [hn], codes_distinct g (readCtrl_inv ovf script g h).1⟩

/-- Instance of C17 (amended): the table of `dupScript`. -/
theorem signal_names_witness :
    ∃ g, readCtrl ovfZero dupScript = .ok g ∧
      g.signals.map Signal.name = wireNames (fgetsLines dupScript.data []) :=
  ⟨_, rfl, (signal_names ovfZero dupScript _ rfl).1⟩

set_option maxRecDepth 100000 in
/-- C16 fails on the code: `fullScript` has 129 valid `wire` lines and `readCtrl`
accepts it. The table gets 129 entries, the last one at index 128, which is
outside `signals[128]`. -/
theorem overfull_table_accepted :
    ∃ g, readCtrl ovfZero fullScript = .ok g ∧ g.signals.length = 129 ∧
      g.signals[128]?.map Signal.name = some "w128" :=
  ⟨_, rfl, rfl, rfl⟩


/-! ## Comment and blank lines -/

theorem fgetsChunks_append_newline (p rest acc : List Char) :
    fgetsChunks (p ++ '\n' :: rest) acc =
      fgetsChunks (p ++ ['\n']) acc ++ fgetsChunks rest [] := by
  induction p generalizing acc with
  | nil => simp [fgetsChunks]
  | cons c p1 ih =>
    rw [List.cons_append, List.cons_append, fgetsChunks, fgetsChunks]
    split_ifs
    · rw [ih]; rfl
    · rw [ih]

theorem fgetsChunks_short_line (body acc : List Char) (hnl : '\n' ∉ body)
    (hlen : acc.length + body.length + 1 ≤ LINE_SIZE - 1) :
    fgetsChunks (body ++ ['\n']) acc = [acc.reverse ++ body ++ ['\n']] := by
  induction body generalizing acc with
  | nil => simp [fgetsChunks]
  | cons c b ih =>
    have hc : c ≠ '\n' := fun h => hnl (h ▸ List.mem_cons_self _ _)
    have hb : '\n' ∉ b := fun h => hnl (List.mem_cons_of_mem _ h)
    simp only [List.length_cons, LINE_SIZE] at hlen
    have hcond : ¬ (c = '\n' ∨ acc.length + 1 = LINE_SIZE - 1) := by
      simp only [LINE_SIZE]
      rintro (h | h)
      · exact hc h
      · omega
    rw [List.cons_append, fgetsChunks, if_neg hcond,
      ih (c :: acc) hb (by simp only [List.length_cons, LINE_SIZE]; omega)]
    simp

theorem ctrlLines_append (ovf : String → Int) (a b : List (List Char)) (n : Nat) (g : Globals) :
    ctrlLines ovf (a ++ b) n g =
      match ctrlLines ovf a n g with
      | .error e => .error e
      | .ok g1 => ctrlLines ovf b (n + a.length) g1 := by
  induction a generalizing n g with
  | nil => rfl
  | cons l ls ih =>
    rw [List.cons_append, ctrlLines, ctrlLines, List.length_cons]
    cases ctrlLine ovf g n l with
    | error e => rfl
    | ok g1 =>
      simp only
      rw [ih]
      have : n + 1 + ls.length = n + (ls.length + 1) := by omega
      rw [this]

theorem wireStore_lineno (g : Globals) (n m : Nat) (name : String) (hi lo : Int) :
    (wireStore g n name hi lo).toOption = (wireStore g m name hi lo).toOption := by
  unfold wireStore
  split_ifs <;> rfl

theorem directive_lineno (ovf : String → Int) (g : Globals) (n m : Nat) (toks : List String) :
    (directive ovf g n toks).toOption = (directive ovf g m toks).toOption := by
  unfold directive
  split
  · rfl
  · split_ifs
    · rfl
    · unfold timescaleDirective
      split
      · split_ifs <;> rfl
      · rfl
    · unfold moduleDirective
      split
      · split_ifs <;> rfl
      · rfl
    · unfold wireDirective
      split
      · split_ifs <;> first | rfl | exact wireStore_lineno _ _ _ _ _ _
      · split_ifs <;> first | rfl | exact wireStore_lineno _ _ _ _ _ _
      · rfl
    · rfl

theorem ctrlLine_lineno (ovf : String → Int) (g : Globals) (n m : Nat) (line : List Char) :
    (ctrlLine ovf g n line).toOption = (ctrlLine ovf g m line).toOption := by
  unfold ctrlLine
  split_ifs
  · rfl
  · exact directive_lineno ovf g n m _

theorem ctrlLines_lineno (ovf : String → Int) (ls : List (List Char)) (n m : Nat) (g : Globals) :
    (ctrlLines ovf ls n g).toOption = (ctrlLines ovf ls m g).toOption := by
  induction ls generalizing n m g with
  | nil => rfl
  | cons l rest ih =>
    have hl := ctrlLine_lineno ovf g n m l
    unfold ctrlLines
    cases h1 : ctrlLine ovf g n l with
    | error e1 =>
      cases h2 : ctrlLine ovf g m l with
      | error e2 => rfl
      | ok g2 => rw [h1, h2] at hl; cases hl
    | ok g1 =>
      cases h2 : ctrlLine ovf g m l with
      | error e2 => rw [h1, h2] at hl; cases hl
      | ok g2 =>
        rw [h1, h2] at hl
        have : g1 = g2 := by simpa [Except.toOption] using hl
        subst this
        exact ih (n + 1) (m + 1) g1

theorem ok_iff_of_toOption (r1 r2 : Except Failure Globals) (h : r1.toOption = r2.toOption)
    (g : Globals) : r1 = .ok g ↔ r2 = .ok g := by
  cases r1 <;> cases r2 <;> simp_all [Except.toOption]

theorem ctrlLine_comment (ovf : String → Int) (g : Globals) (n : Nat) (line : List Char)
    (htok : (tokenize line).length ≤ MAX_TOKENS)
    (hc : tokenize line = [] ∨
      ∃ t rest, tokenize line = t :: rest ∧ t.data.head? = some '#') :
    ctrlLine ovf g n line = .ok g := by
  have hlen : ¬ (tokenize line).length > MAX_TOKENS := by omega
  rw [ctrlLine_short ovf g n line hlen]
  rcases hc with h | ⟨t, rest, h, hh⟩
  · rw [h]; rfl
  · rw [h]
    simp only [directive, hh, if_true]

theorem ctrlLines_insert_comment (ovf : String → Int) (a b : List (List Char))
    (c : List Char) (hc : ∀ g n, ctrlLine ovf g n c = .ok g) (n : Nat) (g : Globals) :
    (ctrlLines ovf (a ++ c :: b) n g).toOption = (ctrlLines ovf (a ++ b) n g).toOption := by
  rw [ctrlLines_append, ctrlLines_append]
  cases ctrlLines ovf a n g with
  | error e => rfl
  | ok g1 =>
    simp only
    rw [ctrlLines, hc g1]
    exact ctrlLines_lineno ovf b _ _ g1

theorem fileBytes_append (a b : List Char) : fileBytes (a ++ b) = fileBytes a ++ fileBytes b := by
  simp [fileBytes]

theorem fileBytes_nil : fileBytes [] = [] := rfl

theorem fileBytes_newline : fileBytes ['\n'] = ['\n'] := rfl

theorem fileBytes_cons_newline (rest : List Char) :
    fileBytes ('\n' :: rest) = '\n' :: fileBytes rest := rfl

theorem fgetsLines_insert (pre body post : List Char)
    (hpre : pre = [] ∨ ∃ p, pre = p ++ ['\n'])
    (hnl : '\n' ∉ fileBytes body) (hlen : (fileBytes body).length + 1 ≤ LINE_SIZE - 1) :
    ∃ a : List (List Char),
      fgetsLines (pre ++ (body ++ ['\n']) ++ post) [] =
        a ++ (fileBytes body ++ ['\n']) :: fgetsLines post [] ∧
      fgetsLines (pre ++ post) [] = a ++ fgetsLines post [] := by
  have hline : ∀ rest, fgetsChunks (fileBytes body ++ '\n' :: rest) [] =
      (fileBytes body ++ ['\n']) :: fgetsChunks rest [] := by
    intro rest
    rw [fgetsChunks_append_newline,
      fgetsChunks_short_line (fileBytes body) [] hnl (by simpa using hlen)]
    simp
  unfold fgetsLines
  rcases hpre with rfl | ⟨p, rfl⟩
  · refine ⟨[], ?_, rfl⟩
    rw [List.nil_append, fileBytes_append, fileBytes_append, fileBytes_newline]
    simp only [List.nil_append, List.append_assoc, List.singleton_append]
    exact hline (fileBytes post)
  · have e1 : fileBytes (p ++ ['\n'] ++ (body ++ ['\n']) ++ post) =
        fileBytes p ++ '\n' :: (fileBytes body ++ '\n' :: fileBytes post) := by
      simp only [fileBytes_append, fileBytes_newline, fileBytes_cons_newline, fileBytes_nil,
        List.append_assoc, List.singleton_append, List.cons_append, List.nil_append]
    have e2 : fileBytes (p ++ ['\n'] ++ post) = fileBytes p ++ '\n' :: fileBytes post := by
      simp only [fileBytes_append, fileBytes_newline, fileBytes_cons_newline, fileBytes_nil,
        List.append_assoc, List.singleton_append, List.cons_append, List.nil_append]
    refine ⟨fgetsChunks (fileBytes p ++ ['\n']) [], ?_, ?_⟩
    · rw [e1, fgetsChunks_append_newline (fileBytes p) _ [], hline]
    · rw [e2, fgetsChunks_append_newline (fileBytes p) (fileBytes post) []]

/-- C12 (amended): comment and blank lines are ignored by `readCtrl`. Take a line
that fits the line buffer (at most 99 bytes with its newline), has at most 20
tokens, and is blank or has a first token that begins with `#`. Inserting it into a
script at a line boundary, or removing it, changes neither whether `readCtrl`
succeeds nor the resulting configuration, and the line itself never raises an
error. -/
theorem comment_line_ignored (ovf : String → Int) (pre body post : List Char)
    (hpre : pre = [] ∨ ∃ p, pre = p ++ ['\n'])
    (hnl : '\n' ∉ fileBytes body) (hlen : (fileBytes body).length + 1 ≤ LINE_SIZE - 1)
    (htok : (tokenize (fileBytes body ++ ['\n'])).length ≤ MAX_TOKENS)
    (hc : tokenize (fileBytes body ++ ['\n']) = [] ∨
      ∃ t rest, tokenize (fileBytes body ++ ['\n']) = t :: rest ∧ t.data.head? = some '#') :
    (∀ g, readCtrl ovf (String.mk (pre ++ (body ++ ['\n']) ++ post)) = .ok g ↔
      readCtrl ovf (String.mk (pre ++ post)) = .ok g) ∧
    (∀ g n, ctrlLine ovf g n (fileBytes body ++ ['\n']) = .ok g) := by
  have hline : ∀ g n, ctrlLine ovf g n (fileBytes body ++ ['\n']) = .ok g :=
    fun g n => ctrlLine_comment ovf g n _ htok hc
  refine ⟨?_, hline⟩
  intro g
  obtain ⟨a, h1, h2⟩ := fgetsLines_insert pre body post hpre hnl hlen
  have hopt := ctrlLines_insert_comment ovf a (fgetsLines post []) _ hline 1 Globals.init
  unfold readCtrl
  simp only [h1, h2]
  cases hw : ctrlLines ovf (a ++ (fileBytes body ++ ['\n']) :: fgetsLines post []) 1
      Globals.init with
  | error e1 =>
    cases hwo : ctrlLines ovf (a ++ fgetsLines post []) 1 Globals.init with
    | error e2 => simp
    | ok g2 => rw [hw, hwo] at hopt; cases hopt
  | ok g1 =>
    cases hwo : ctrlLines ovf (a ++ fgetsLines post []) 1 Globals.init with
    | error e2 => rw [hw, hwo] at hopt; cases hopt
    | ok g2 =>
      rw [hw, hwo] at hopt
      have : g1 = g2 := by simpa [Except.toOption] using hopt
      subst this
      rfl

/-- C12, as stated, fails. `crowdedComment` is a comment line of 21 tokens: put in
front of `scenarioScript` it stops `readCtrl` with "too many tokens".
`longComment` is a comment line of more than 99 bytes: put behind `scenarioScript`
its tail is read as a line of its own and adds the signal `b`. `accentComment` has
60 characters and 108 bytes, and its tail adds the signal `b` in the same way. -/
theorem comment_line_not_always_ignored :
    readCtrl ovfZero scenarioScript = .ok scenarioGlobals ∧
    (tokenize crowdedComment.data).head? = some "#" ∧
    readCtrl ovfZero (crowdedComment ++ scenarioScript) =
      .error (.ctrlError "too many tokens" 1) ∧
    ((tokenize longComment.data).head? = some "#" ∧ '\n' ∉ longComment.data.dropLast) ∧
    (∃ g, readCtrl ovfZero (scenarioScript ++ longComment) = .ok g ∧
      g.signals.map Signal.name = ["a", "b"]) ∧
    (accentComment.data.length = 60 ∧ (fileBytes accentComment.data).length = 108 ∧
      '\n' ∉ accentComment.data.dropLast) ∧
    ∃ g, readCtrl ovfZero (scenarioScript ++ accentComment) = .ok g ∧
      g.signals.map Signal.name = ["a", "b"] := by
  refine ⟨rfl, rfl, rfl, ⟨rfl, by decide⟩, ⟨_, rfl, rfl⟩, ⟨rfl, rfl, by decide⟩, _, rfl, rfl⟩

/-- Instance of C12 (amended): the comment line `# note` behind `scenarioScript`. -/
theorem comment_line_ignored_witness :
    (∃ p, scenarioScript.data = p ++ ['\n']) ∧ '\n' ∉ fileBytes "# note".data ∧
    (fileBytes "# note".data).length + 1 ≤ LINE_SIZE - 1 ∧
    (tokenize (fileBytes "# note".data ++ ['\n'])).length ≤ MAX_TOKENS ∧
    (∀ g, readCtrl ovfZero (String.mk (scenarioScript.data ++ ("# note".data ++ ['\n']) ++ []))
        = .ok g ↔
      readCtrl ovfZero (String.mk (scenarioScript.data ++ [])) = .ok g) :=
  ⟨⟨"timescale 10 ns\nmodule m\nwire a 0".data, rfl⟩, by decide, by decide, by decide,
    (comment_line_ignored ovfZero scenarioScript.data "# note".data []
      (Or.inr ⟨"timescale 10 ns\nmodule m\nwire a 0".data, rfl⟩) (by decide) (by decide)
      (by decide) (Or.inr ⟨"#", ["note"], rfl, rfl⟩)).1⟩

/-! ## Replay of the trace -/

theorem lineCode_of_head (l : String) (c : Char) (h : l.data.head? = some c)
    (hb : c ≠ 'b') (h0 : c ≠ '0') (h1 : c ≠ '1') : lineCode l = none := by
  unfold lineCode
  cases hd : l.data with
  | nil => rfl
  | cons d rest =>
    rw [hd] at h
    simp only [List.head?_cons, Option.some.injEq] at h
    subst h
    simp [hb, h0, h1]

theorem lineCode_timeLine (g : Globals) (t : Int) : lineCode (timeLine g t) = none :=
  lineCode_of_head _ '#' (head_append "#" _ '#' rfl) (by decide) (by decide) (by decide)

theorem bitChar_cases (data : RawData) (b t : Int) :
    bitChar (bitAt data b t) = '0' ∨ bitChar (bitAt data b t) = '1' := by
  rw [bitChar_of_le_one _ (bitAt_le_one data b t)]
  split_ifs
  · exact Or.inr rfl
  · exact Or.inl rfl

theorem dropWhile_bits (bits : List Char) (rest : List Char)
    (h : ∀ c ∈ bits, c = '0' ∨ c = '1') :
    (bits ++ ' ' :: rest).dropWhile (fun d => d != ' ') = ' ' :: rest := by
  induction bits with
  | nil => simp
  | cons c cs ih =>
    have hc : c ≠ ' ' := by
      rcases h c (List.mem_cons_self _ _) with rfl | rfl <;> decide
    rw [List.cons_append, List.dropWhile_cons]
    simp only [bne_iff_ne, ne_eq, hc, not_false_eq_true, if_true]
    exact ih (fun d hd => h d (List.mem_cons_of_mem _ hd))

theorem lineCode_valueLine (data : RawData) (t : Int) (s : Signal) :
    lineCode (specValueLine data t s) = some s.code := by
  unfold specValueLine
  split_ifs
  · unfold lineCode
    rw [String.data_append]
    rcases bitChar_cases data s.hiIndex t with h | h <;> simp [h]
  · unfold lineCode
    simp only [String.data_append]
    simp only [List.singleton_append, List.append_assoc, List.cons_append, List.nil_append,
      if_true]
    rw [dropWhile_bits]
    · simp
    · intro c hc
      obtain ⟨j, -, rfl⟩ := List.mem_map.mp hc
      exact bitChar_cases data _ t

theorem filter_code_eq (l : List Signal) (s : Signal) (hn : (l.map Signal.code).Nodup)
    (hmem : s ∈ l) : l.filter (fun x => x.code == s.code) = [s] := by
  induction l with
  | nil => cases hmem
  | cons x rest ih =>
    rw [List.map_cons, List.nodup_cons] at hn
    obtain ⟨hx, hrest⟩ := hn
    rcases List.mem_cons.mp hmem with rfl | hin
    · have hnone : rest.filter (fun y => y.code == s.code) = [] := by
        apply List.filter_eq_nil_iff.mpr
        intro y hy hcode
        apply hx
        rw [← beq_iff_eq.mp hcode]
        exact List.mem_map_of_mem _ hy
      simp [List.filter_cons, hnone]
    · have hne : x.code ≠ s.code := by
        intro h
        apply hx
        rw [h]
        exact List.mem_map_of_mem _ hin
      simp [List.filter_cons, hne, ih hrest hin]

/-- Lines with the code of `s` among the value lines of a sublist of the table. -/
theorem filter_lines_code (data : RawData) (t : Int) (s : Signal) (l : List Signal)
    (hn : (l.map Signal.code).Nodup) (hmem : s ∈ l) (p : Signal → Bool) :
    ((l.filter p).map (specValueLine data t)).filter (fun x => lineCode x == some s.code) =
      if p s then [specValueLine data t s] else [] := by
  rw [List.filter_map]
  have hfun : ((fun x => lineCode x == some s.code) ∘ specValueLine data t) =
      fun x => x.code == s.code := by
    funext x
    simp [Function.comp, lineCode_valueLine]
  rw [hfun, List.filter_filter]
  have hcomm : l.filter (fun a => (a.code == s.code) && p a) =
      (l.filter (fun a => a.code == s.code)).filter p := by
    rw [List.filter_filter]
    congr 1
    funext a
    exact Bool.and_comm _ _
  rw [hcomm, filter_code_eq l s hn hmem]
  cases hp : p s <;> simp [List.filter_cons, hp]

theorem filter_step_code (g : Globals) (data : RawData) (t : Int) (s : Signal)
    (hn : (g.signals.map Signal.code).Nodup) (hmem : s ∈ g.signals) :
    (specStep g data t).filter (fun x => lineCode x == some s.code) =
      if changedAt data t s then [specValueLine data t s] else [] := by
  have hl := filter_lines_code data t s g.signals hn hmem (changedAt data t)
  unfold specStep
  cases hE : (g.signals.filter (changedAt data t)).isEmpty
  · simp only [Bool.false_eq_true, if_false, List.filter_cons, lineCode_timeLine]
    simpa using hl
  · have hnil : g.signals.filter (changedAt data t) = [] := List.isEmpty_iff.mp hE
    rw [hnil] at hl
    simp only [if_true, List.filter_nil]
    simpa using hl

theorem lastLine_steps (g : Globals) (data : RawData) (s : Signal) (front : List String)
    (hrange : AllInRange g) (hn : (g.signals.map Signal.code).Nodup) (hmem : s ∈ g.signals)
    (hfront : lastLineFor s.code front = some (specValueLine data 0 s))
    (t : Nat) (ht : t ≤ 511) :
    lastLineFor s.code
        (front ++ (List.range' 1 t).flatMap fun (u : Nat) => specStep g data (u : Int)) =
      some (specValueLine data t s) := by
  induction t with
  | zero => simpa using hfront
  | succ k ih =>
    have ihk := ih (by omega)
    unfold lastLineFor at ihk ⊢
    rw [List.range'_concat, List.flatMap_append, ← List.append_assoc, List.filter_append]
    simp only [List.flatMap_cons, List.flatMap_nil, List.append_nil, Nat.one_mul]
    rw [filter_step_code g data _ s hn hmem]
    have hcast : ((1 + k : Nat) : Int) = (k : Int) + 1 := by push_cast; omega
    have hcast2 : ((k + 1 : Nat) : Int) = (k : Int) + 1 := by push_cast; rfl
    rw [hcast, hcast2]
    cases hc : changedAt data ((k : Int) + 1) s
    · simp only [Bool.false_eq_true, if_false, List.append_nil]
      rw [ihk]
      have := specValueLine_unchanged data s ((k : Int) + 1) (hrange s hmem) hc
      simp only [add_sub_cancel_right] at this
      rw [this]
    · simp only [if_true]
      rw [List.getLast?_append]
      rfl

theorem lastLine_front (date : String) (g : Globals) (data : RawData) (s : Signal)
    (hn : (g.signals.map Signal.code).Nodup) (hmem : s ∈ g.signals) :
    lastLineFor s.code
      (["$date", "\t" ++ date, "$end",
        "$version", "\tdata2vcd converter", "$end",
        "$timescale", "\t" ++ toString g.timeNumber ++ " " ++ g.timeUnit, "$end",
        "$scope module " ++ g.module.getD "(null)" ++ " $end"] ++
        writeVarDefs g ++
        ["$upscope $end", "$enddefinitions $end", "#0", "$dumpvars"] ++
        g.signals.map (specValueLine data 0) ++ ["$end"]) =
      some (specValueLine data 0 s) := by
  have hd : lineCode ("\t" ++ date) = none :=
    lineCode_of_head _ '\t' (head_append "\t" date '\t' rfl) (by decide) (by decide) (by decide)
  have hts : lineCode ("\t" ++ toString g.timeNumber ++ " " ++ g.timeUnit) = none :=
    lineCode_of_head _ '\t' (head_append _ _ '\t' (head_append _ _ '\t'
      (head_append "\t" _ '\t' rfl))) (by decide) (by decide) (by decide)
  have hsc : lineCode ("$scope module " ++ g.module.getD "(null)" ++ " $end") = none :=
    lineCode_of_head _ '$' (head_append _ _ '$' (head_append "$scope module " _ '$' rfl))
      (by decide) (by decide) (by decide)
  have hhead : (["$date", "\t" ++ date, "$end",
      "$version", "\tdata2vcd converter", "$end",
      "$timescale", "\t" ++ toString g.timeNumber ++ " " ++ g.timeUnit, "$end",
      "$scope module " ++ g.module.getD "(null)" ++ " $end"] : List String).filter
      (fun x => lineCode x == some s.code) = [] := by
    apply List.filter_eq_nil_iff.mpr
    intro l hl
    simp only [List.mem_cons, List.mem_singleton, List.not_mem_nil, or_false] at hl
    have hnone : lineCode l = none := by
      rcases hl with rfl | rfl | rfl | rfl | rfl | rfl | rfl | rfl | rfl | rfl
      · rfl
      · exact hd
      · rfl
      · rfl
      · rfl
      · rfl
      · rfl
      · exact hts
      · rfl
      · exact hsc
    simp [hnone]
  have hdefs : (writeVarDefs g).filter (fun x => lineCode x == some s.code) = [] := by
    apply List.filter_eq_nil_iff.mpr
    intro l hl
    unfold writeVarDefs at hl
    obtain ⟨x, -, rfl⟩ := List.mem_map.mp hl
    have hnone : lineCode ("$var wire " ++ toString (x.hiIndex - x.loIndex + 1) ++ " " ++
        x.code ++ " " ++ x.name ++ " " ++
        (if x.hiIndex - x.loIndex + 1 > 1 then
          "[" ++ toString (x.hiIndex - x.loIndex + 1 - 1) ++ ":" ++ toString (0 : Int) ++ "] "
         else "") ++ "$end") = none := by
      apply lineCode_of_head _ '$' _ (by decide) (by decide) (by decide)
      repeat apply head_append
      rfl
    have hq : ∀ l : String, lineCode l = none → ¬ ((lineCode l == some s.code) = true) := by
      intro l h
      rw [h]
      simp
    exact hq _ hnone
  have hmid : (["$upscope $end", "$enddefinitions $end", "#0", "$dumpvars"] :
      List String).filter (fun x => lineCode x == some s.code) = [] := by
    apply List.filter_eq_nil_iff.mpr
    intro l hl
    simp only [List.mem_cons, List.mem_singleton, List.not_mem_nil, or_false] at hl
    have hnone : lineCode l = none := by
      rcases hl with rfl | rfl | rfl | rfl <;> rfl
    simp [hnone]
  have hend : (["$end"] : List String).filter (fun x => lineCode x == some s.code) = [] := by
    have hnone : lineCode "$end" = none := rfl
    simp [List.filter_cons, hnone]
  have hinits : (g.signals.map (specValueLine data 0)).filter
      (fun x => lineCode x == some s.code) = [specValueLine data 0 s] := by
    have h := filter_lines_code data 0 s g.signals hn hmem (fun _ => true)
    simpa using h
  unfold lastLineFor
  simp only [List.filter_append, hhead, hdefs, hmid, hinits, hend, List.nil_append,
    List.append_nil]
  rfl

theorem range'_prefix (t : Nat) (ht : t ≤ 511) :
    List.range' 1 511 = List.range' 1 t ++ List.range' (t + 1) (511 - t) := by
  have h1 := List.range'_append 1 t (511 - t) 1
  have h3 : 1 + 1 * t = t + 1 := by omega
  have h4 : 511 - t + t = 511 := by omega
  rw [h3, h4] at h1
  exact h1.symm

/-- Tables with position codes have pairwise distinct codes; `readCtrl` builds only
such tables. -/
theorem codes_nodup (g : Globals) (h : CodesAssigned g) :
    (g.signals.map Signal.code).Nodup := by
  rw [List.nodup_iff_getElem?_ne_getElem?]
  intro i j hij hj hEq
  rw [List.length_map] at hj
  have hi : i < g.signals.length := by omega
  rw [List.getElem?_map, List.getElem?_map, List.getElem?_eq_getElem hi,
    List.getElem?_eq_getElem hj] at hEq
  exact codes_distinct g h i j _ _ (List.getElem?_eq_getElem hi) (List.getElem?_eq_getElem hj)
    (by omega) (Option.some.inj hEq)

/-- Every table that `readCtrl` builds has its signals in range and pairwise distinct
codes. -/
theorem readCtrl_codes_nodup (ovf : String → Int) (script : String) (g : Globals)
    (h : readCtrl ovf script = .ok g) :
    AllInRange g ∧ (g.signals.map Signal.code).Nodup :=
  ⟨(readCtrl_inv ovf script g h).2, codes_nodup g (readCtrl_inv ovf script g h).1⟩

/-- C18: lossless replay of the trace. For a configuration whose signals all have
`0 <= lo <= hi <= 127` and pairwise distinct identifier codes (as in every table
that `readCtrl` builds), a signal `S` of the table and a time step `t` in
`0 .. 511`: the output of `writeVcd` is the header, the declarations, the
`$dumpvars` section with the lines of `writeVarInits`, what the time loop writes for
the steps `1 .. t`, what it writes for the steps `t+1 .. 511`, and the closing
timestamp; and in the part of the output written up to and including step `t`, the
last value line that carries the code of `S` is the line `writeVarChange` renders
for `S` at time `t`. -/
theorem lossless_replay (date : String) (g : Globals) (data : RawData) (s : Signal) (t : Nat)
    (hrange : AllInRange g) (hcodes : (g.signals.map Signal.code).Nodup)
    (hmem : s ∈ g.signals) (ht : t ≤ 511) :
    ∃ (inits steps later : List String) (line : String),
      writeVarInits data g.signals = .ok inits ∧
      timeLoop g data t 1 = .ok steps ∧
      timeLoop g data (511 - t) ((t : Int) + 1) = .ok later ∧
      writeVcd date g data =
        .ok (["$date", "\t" ++ date, "$end",
              "$version", "\tdata2vcd converter", "$end",
              "$timescale", "\t" ++ toString g.timeNumber ++ " " ++ g.timeUnit, "$end",
              "$scope module " ++ g.module.getD "(null)" ++ " $end"] ++
             writeVarDefs g ++
             ["$upscope $end", "$enddefinitions $end", "#0", "$dumpvars"] ++
             inits ++ ["$end"] ++ steps ++ (later ++ [timeLine g 512])) ∧
      writeVarChange data s t = .ok line ∧
      lastLineFor s.code
        (["$date", "\t" ++ date, "$end",
          "$version", "\tdata2vcd converter", "$end",
          "$timescale", "\t" ++ toString g.timeNumber ++ " " ++ g.timeUnit, "$end",
          "$scope module " ++ g.module.getD "(null)" ++ " $end"] ++
         writeVarDefs g ++
         ["$upscope $end", "$enddefinitions $end", "#0", "$dumpvars"] ++
         inits ++ ["$end"] ++ steps) = some line := by
  have hsteps := timeLoop_eq g data hrange t 1 (le_refl _) (by omega)
  have hlater := timeLoop_eq g data hrange (511 - t) (t + 1) (by omega) (by omega)
  simp only [Nat.cast_one] at hsteps
  have hc : ((t + 1 : Nat) : Int) = (t : Int) + 1 := by push_cast; rfl
  rw [hc] at hlater
  refine ⟨g.signals.map (specValueLine data 0),
    (List.range' 1 t).flatMap fun (u : Nat) => specStep g data (u : Int),
    (List.range' (t + 1) (511 - t)).flatMap fun (u : Nat) => specStep g data (u : Int),
    specValueLine data t s,
    writeVarInits_eq data g.signals hrange, hsteps, hlater, ?_,
    writeVarChange_eq data s t (hrange s hmem) (by omega) (by exact_mod_cast ht), ?_⟩
  · rw [writeVcd_eq date g data hrange, specBody, range'_prefix t ht, List.flatMap_append]
    simp only [List.append_assoc]
  · exact lastLine_steps g data s _ hrange hcodes hmem
      (lastLine_front date g data s hcodes hmem) t ht

/-- Instance of C18: the four-bit signal `busSignal` of `busGlobals` at time step 2
of `pulseData`. -/
theorem lossless_replay_witness :
    AllInRange busGlobals ∧ (busGlobals.signals.map Signal.code).Nodup ∧
    busSignal ∈ busGlobals.signals ∧ 2 ≤ 511 ∧
    ∃ (inits steps later : List String) (line : String),
      writeVarInits pulseData busGlobals.signals = .ok inits ∧
      timeLoop busGlobals pulseData 2 1 = .ok steps ∧
      timeLoop busGlobals pulseData (511 - 2) (((2 : Nat) : Int) + 1) = .ok later ∧
      writeVcd "today" busGlobals pulseData =
        .ok (["$date", "\t" ++ "today", "$end",
              "$version", "\tdata2vcd converter", "$end",
              "$timescale", "\t" ++ toString busGlobals.timeNumber ++ " " ++
                busGlobals.timeUnit, "$end",
              "$scope module " ++ busGlobals.module.getD "(null)" ++ " $end"] ++
             writeVarDefs busGlobals ++
             ["$upscope $end", "$enddefinitions $end", "#0", "$dumpvars"] ++
             inits ++ ["$end"] ++ steps ++ (later ++ [timeLine busGlobals 512])) ∧
      writeVarChange pulseData busSignal ((2 : Nat) : Int) = .ok line ∧
      lastLineFor busSignal.code
        (["$date", "\t" ++ "today", "$end",
          "$version", "\tdata2vcd converter", "$end",
          "$timescale", "\t" ++ toString busGlobals.timeNumber ++ " " ++
            busGlobals.timeUnit, "$end",
          "$scope module " ++ busGlobals.module.getD "(null)" ++ " $end"] ++
         writeVarDefs busGlobals ++
         ["$upscope $end", "$enddefinitions $end", "#0", "$dumpvars"] ++
         inits ++ ["$end"] ++ steps) = some line :=
  ⟨allInRange_bus, by decide, by decide, by decide,
    lossless_replay "today" busGlobals pulseData busSignal 2 allInRange_bus (by decide)
      (by decide) (by decide)⟩

end Data2Vcd
